import Mathlib

/-!
Verification development for the template evaluator and the current/suggested
diff-view state machine of the living-reports backend (`template.py`,
`execution_result.py`, `simple_view.py`, `diff_view.py`).

Python strings are embedded as `List Char`; Python dicts (insertion ordered,
unique keys) as association lists; the mutable `ExecutionResult.variables`
dictionaries shared between views as references into an explicit store.
The LLM completion collaborator is a parameter
`client : List Char → Except (List Char) (List Char)` (an `Except.error e`
models a raised exception whose `str` is `e`); calls made to it are logged so
call counts can be stated.  The data-source resolver is a parameter
`renderDS : List Char → List Char`; as in `Template._render_data_source`, a
name `n` is unresolved exactly when the resolver returns the literal
`"$" ++ n`.
-/

set_option maxHeartbeats 1000000
set_option maxRecDepth 10000

unseal Rat.add Rat.mul Rat.inv Rat.sub Rat.ofScientific

namespace LivingReports

/-- Characters of a Python string: all text in this embedding is a `List Char`. -/
abbrev Str := List Char

/-- Python `text.split("\n")`: split on every newline; the result always has at
least one (possibly empty) piece. -/
def splitNl : Str → List Str
  | [] => [[]]
  | c :: rest =>
    let r := splitNl rest
    if c = '\n' then [] :: r
    else
      match r with
      | [] => [[c]]
      | h :: t => (c :: h) :: t

/-- Python `"\n".join(lines)`. -/
def joinNl : List Str → Str
  | [] => []
  | [l] => l
  | l :: rest => l ++ '\n' :: joinNl rest

/-- One record of `DiffView._compute_line_diffs`
(`{lineIndex, originalLine, suggestedLine, changeType}`). -/
structure LineDiff where
  lineIndex : Nat
  originalLine : Str
  suggestedLine : Str
  changeType : Str
deriving DecidableEq, Repr

/-- The `changeType` expression of `DiffView._compute_line_diffs`:
`"modified" if current_line and suggested_line else "added" if not current_line
else "removed"` (a Python string is truthy iff non-empty). -/
def diffChangeType (currentLine suggestedLine : Str) : Str :=
  if currentLine ≠ [] ∧ suggestedLine ≠ [] then "modified".toList
  else if currentLine = [] then "added".toList
  else "removed".toList

/-- `DiffView._compute_line_diffs`: split both template texts into lines, walk
indices `0 .. max(len(current), len(suggested)) - 1`, default a missing line to
`""`, and emit a record for every index whose two lines differ. -/
def computeLineDiffs (currentText suggestedText : Str) : List LineDiff :=
  let currentLines := splitNl currentText
  let suggestedLines := splitNl suggestedText
  let maxLines := max currentLines.length suggestedLines.length
  (List.range maxLines).filterMap (fun i =>
    let currentLine := currentLines.getD i []
    let suggestedLine := suggestedLines.getD i []
    if currentLine = suggestedLine then none
    else some { lineIndex := i, originalLine := currentLine,
                suggestedLine := suggestedLine,
                changeType := diffChangeType currentLine suggestedLine })

example : splitNl "a\nx\nb".toList = ["a".toList, "x".toList, "b".toList] := by decide

example :
    (computeLineDiffs "a\nb".toList "a\nx\nb".toList).map LineDiff.changeType
      = ["modified".toList, "added".toList] := by decide

/-- Python `needle in hay` for strings: substring containment. -/
def containsSub (needle : Str) : Str → Bool
  | [] => needle.isEmpty
  | c :: t => needle.isPrefixOf (c :: t) || containsSub needle t

/-- Split `s` at the first occurrence of the literal `pat`: the text before the
occurrence and the text after it, or `none` when `pat` does not occur. -/
def splitFirst (pat : Str) : Str → Option (Str × Str)
  | [] => if pat.isEmpty then some ([], []) else none
  | c :: t =>
    if pat.isPrefixOf (c :: t) then some ([], (c :: t).drop pat.length)
    else
      match splitFirst pat t with
      | some pr => some (c :: pr.1, pr.2)
      | none => none

theorem splitFirst_some_length {pat : Str} (hpat : pat ≠ []) :
    ∀ {s : Str} {pr : Str × Str}, splitFirst pat s = some pr →
      pr.2.length < s.length := by
  intro s
  induction s with
  | nil =>
    intro pr h
    simp only [splitFirst, List.isEmpty_iff] at h
    rw [if_neg hpat] at h
    exact absurd h (by simp)
  | cons c t ih =>
    intro pr h
    simp only [splitFirst] at h
    by_cases hp : pat.isPrefixOf (c :: t)
    · rw [if_pos hp] at h
      have := Option.some_inj.mp h
      subst this
      have hlen : 1 ≤ pat.length := by
        cases pat with
        | nil => exact absurd rfl hpat
        | cons _ _ => simp
      simp only [List.length_drop, List.length_cons]
      omega
    · rw [if_neg hp] at h
      cases hsp : splitFirst pat t with
      | none => rw [hsp] at h; exact absurd h (by simp)
      | some pr' =>
        rw [hsp] at h
        have := Option.some_inj.mp h
        subst this
        have := ih hsp
        simp only [List.length_cons]
        omega

/-- The named/numeric HTML entities modelled here; Python's `html.unescape`
(standard library, external to this repository) is modelled on the entity set
that the editor's diff markup uses. -/
def htmlEntities : List (Str × Char) :=
  [("amp;".toList, '&'), ("lt;".toList, '<'), ("gt;".toList, '>'),
   ("quot;".toList, '"'), ("#39;".toList, '\''), ("#x27;".toList, '\''),
   ("apos;".toList, '\''), ("nbsp;".toList, ' ')]

/-- Fuel-driven worker for `htmlUnescape`; every step consumes at least one
character, so fuel equal to the input length suffices. -/
def htmlUnescapeGo : Nat → Str → Str
  | 0, _ => []
  | _ + 1, [] => []
  | fuel + 1, '&' :: t =>
    (match htmlEntities.find? (fun e => e.1.isPrefixOf t) with
     | some e => e.2 :: htmlUnescapeGo fuel (t.drop e.1.length)
     | none => '&' :: htmlUnescapeGo fuel t)
  | fuel + 1, c :: t => c :: htmlUnescapeGo fuel t

/-- Python `html.unescape`, modelled on the entity set above: an `&`-escape is
replaced by its character, every other character is copied. -/
def htmlUnescape (s : Str) : Str := htmlUnescapeGo s.length s

/-- Fuel-driven worker for `stripTags`; every step consumes at least one
character, so fuel equal to the input length suffices
(`splitFirst_some_length`). -/
def stripTagsGo : Nat → Str → Str
  | 0, _ => []
  | _ + 1, [] => []
  | fuel + 1, '<' :: t =>
    (match splitFirst ['>'] t with
     | some pr => stripTagsGo fuel pr.2
     | none => '<' :: stripTagsGo fuel t)
  | fuel + 1, c :: t => c :: stripTagsGo fuel t

/-- `re.sub(r"<[^>]*>", "", s)` from the plain-line branch of
`DiffView.parse_diff_content`: each `<` with a later `>` starts a tag that is
dropped through the first such `>`; a `<` with no following `>` is kept. -/
def stripTags (s : Str) : Str := stripTagsGo s.length s

/-- `re.search(r"PREFIX[^>]*>(.*?)</span>", s)` (no DOTALL), with `PREFIX` one
of the two span-opening literals: candidates are tried at each occurrence of
the literal in order; a candidate matches when the tag is closed by its first
`>` and a `</span>` follows with no intervening newline; the captured group
(the content between them) is returned. -/
def spanContentSearch (openLit : Str) : Str → Option Str
  | [] => none
  | c :: t =>
    if openLit.isPrefixOf (c :: t) then
      match splitFirst ['>'] ((c :: t).drop openLit.length) with
      | some tagRest =>
        (match splitFirst "</span>".toList tagRest.2 with
         | some contentRest =>
           if '\n' ∈ contentRest.1 then spanContentSearch openLit t
           else some contentRest.1
         | none => spanContentSearch openLit t)
      | none => spanContentSearch openLit t
    else spanContentSearch openLit t

/-- Decimal digits to a number (`int(line_index_str)`). -/
def decToNat (s : Str) : Nat :=
  s.foldl (fun n c => n * 10 + (c.toNat - '0'.toNat)) 0

/-- The attribute part of the container regex, applied to the text between
`<div` and the tag's first `>`: it must contain `class="suggestion-line"`,
then `data-line-index="` followed by at least one digit and the closing
quote.  Returns the captured line index. -/
def divTagIndex (tag : Str) : Option Nat :=
  match splitFirst "class=\"suggestion-line\"".toList tag with
  | some clsRest =>
    (match splitFirst "data-line-index=\"".toList clsRest.2 with
     | some idxRest =>
       let digits := idxRest.2.takeWhile Char.isDigit
       if digits = [] then none
       else if (idxRest.2.drop digits.length).head? = some '"' then
         some (decToNat digits)
       else none
     | none => none)
  | none => none

/-- One candidate of the container regex
`<div[^>]*class="suggestion-line"[^>]*data-line-index="(\d+)"[^>]*>(.*?)</div>`
(DOTALL) anchored at the start of `s`: the tag must close with its first `>`,
with the two attribute literals, in order, before it (`[^>]*` cannot cross a
`>`, so the whole attribute part lives before the first `>`); the body runs to
the first `</div>`.  Returns `(line index, body, rest after the match)`. -/
def matchDivAt (s : Str) : Option (Nat × Str × Str) :=
  if "<div".toList.isPrefixOf s then
    match splitFirst ['>'] (s.drop 4) with
    | some tagAfter =>
      match divTagIndex tagAfter.1 with
      | some idx =>
        (match splitFirst "</div>".toList tagAfter.2 with
         | some bodyRest => some (idx, bodyRest.1, bodyRest.2)
         | none => none)
      | none => none
    | none => none
  else none

theorem matchDivAt_rest_length {s : Str} {m : Nat × Str × Str}
    (h : matchDivAt s = some m) : m.2.2.length < s.length := by
  unfold matchDivAt at h
  split at h
  · rename_i hpre
    split at h
    · rename_i tagAfter hta
      split at h
      · split at h
        · rename_i bodyRest hbody
          have h1 := splitFirst_some_length (show (['>'] : Str) ≠ [] by simp) hta
          have h2 := splitFirst_some_length (show "</div>".toList ≠ [] by simp) hbody
          have := Option.some_inj.mp h
          subst this
          simp only [List.length_drop] at h1
          simp only []
          omega
        · exact absurd h (by simp)
      · exact absurd h (by simp)
    · exact absurd h (by simp)
  · exact absurd h (by simp)

/-- Fuel-driven worker for `extractDivs`; every step consumes at least one
character (`matchDivAt_rest_length`), so fuel equal to the input length
suffices. -/
def extractDivsGo : Nat → Str → List (Nat × Str)
  | 0, _ => []
  | _ + 1, [] => []
  | fuel + 1, c :: t =>
    match matchDivAt (c :: t) with
    | some m => (m.1, m.2.1) :: extractDivsGo fuel m.2.2
    | none => extractDivsGo fuel t

/-- `re.findall` over the container pattern: scan the editor content left to
right, collecting non-overlapping matches `(line index, body)`; on failure the
scan advances one character. -/
def extractDivs (s : Str) : List (Nat × Str) := extractDivsGo s.length s

/-- Stable insertion (a later element with an equal index goes after earlier
ones), used to model Python's stable `line_matches.sort(key=...)`. -/
def insertByIdx (x : Nat × Str) : List (Nat × Str) → List (Nat × Str)
  | [] => [x]
  | y :: t => if x.1 < y.1 then x :: y :: t else y :: insertByIdx x t

/-- `line_matches.sort(key=lambda x: int(x[0]))`: stable sort by line index. -/
def sortByIdx (l : List (Nat × Str)) : List (Nat × Str) :=
  l.foldl (fun acc x => insertByIdx x acc) []

/-- The per-container update of `DiffView.parse_diff_content`: dispatch on
which of the two span classes occur in the container body and write the
decoded line into the current and/or suggested array. -/
def applyDivMatch (st : List (Option Str) × List (Option Str)) (m : Nat × Str) :
    List (Option Str) × List (Option Str) :=
  let i := m.1
  let lineContent := m.2
  let hasRemoval := containsSub "class=\"removed-text\"".toList lineContent
  let hasAddition := containsSub "class=\"added-text\"".toList lineContent
  if hasRemoval && hasAddition then
    let cur :=
      match spanContentSearch "<span class=\"removed-text\"".toList lineContent with
      | some r => st.1.set i (some (htmlUnescape r))
      | none => st.1
    let sug :=
      match spanContentSearch "<span class=\"added-text\"".toList lineContent with
      | some a => st.2.set i (some (htmlUnescape a))
      | none => st.2
    (cur, sug)
  else if hasRemoval then
    (match spanContentSearch "<span class=\"removed-text\"".toList lineContent with
     | some r => (st.1.set i (some (htmlUnescape r)), st.2)
     | none => st)
  else if hasAddition then
    (match spanContentSearch "<span class=\"added-text\"".toList lineContent with
     | some a => (st.1, st.2.set i (some (htmlUnescape a)))
     | none => st)
  else
    let plain := htmlUnescape (stripTags lineContent)
    (st.1.set i (some plain), st.2.set i (some plain))

/-- The non-fast-path body of `DiffView.parse_diff_content`: extract the
containers, sort them stably by line index, fill two `None`-initialised arrays
of length `max_line_index + 1`, and default every entry still `None` to `""`. -/
def assembleDiffLines (editorContent : Str) : List Str × List Str :=
  let lineMatches := sortByIdx (extractDivs editorContent)
  let maxLineIndex := (lineMatches.map Prod.fst).foldr max 0
  let init : List (Option Str) := List.replicate (maxLineIndex + 1) none
  let st := lineMatches.foldl applyDivMatch (init, init)
  (st.1.map (fun o => o.getD []), st.2.map (fun o => o.getD []))

/-- `DiffView.parse_diff_content`: content with no `<span ... class=` markup is
returned unchanged as both sides; otherwise the container markup is decoded
into two parallel line lists, joined with newlines. -/
def parseDiffContent (editorContent : Str) : Str × Str :=
  if !(containsSub "<span".toList editorContent
        && containsSub "class=".toList editorContent) then
    (editorContent, editorContent)
  else
    let p := assembleDiffLines editorContent
    (joinNl p.1, joinNl p.2)

theorem mem_insertByIdx {x y : Nat × Str} {l : List (Nat × Str)}
    (h : x ∈ insertByIdx y l) : x = y ∨ x ∈ l := by
  induction l with
  | nil => simpa [insertByIdx] using h
  | cons z t ih =>
    simp only [insertByIdx] at h
    split at h
    · rcases List.mem_cons.mp h with h' | h'
      · exact Or.inl h'
      · exact Or.inr h'
    · rcases List.mem_cons.mp h with h' | h'
      · exact Or.inr (List.mem_cons.mpr (Or.inl h'))
      · rcases ih h' with h'' | h''
        · exact Or.inl h''
        · exact Or.inr (List.mem_cons.mpr (Or.inr h''))

theorem mem_sortByIdx_aux {x : Nat × Str} :
    ∀ (l acc : List (Nat × Str)),
      x ∈ l.foldl (fun acc y => insertByIdx y acc) acc → x ∈ l ∨ x ∈ acc := by
  intro l
  induction l with
  | nil => intro acc h; exact Or.inr h
  | cons y t ih =>
    intro acc h
    simp only [List.foldl_cons] at h
    rcases ih _ h with h' | h'
    · exact Or.inl (List.mem_cons.mpr (Or.inr h'))
    · rcases mem_insertByIdx h' with h'' | h''
      · exact Or.inl (List.mem_cons.mpr (Or.inl h''))
      · exact Or.inr h''

theorem mem_sortByIdx {x : Nat × Str} {l : List (Nat × Str)}
    (h : x ∈ sortByIdx l) : x ∈ l := by
  rcases mem_sortByIdx_aux l [] h with h' | h'
  · exact h'
  · simp at h'

theorem applyDivMatch_fst_getElem {st : List (Option Str) × List (Option Str)}
    {m : Nat × Str} {i : Nat} (h : m.1 ≠ i) :
    (applyDivMatch st m).1[i]? = st.1[i]? := by
  simp only [applyDivMatch]
  repeat' split
  all_goals simp [List.getElem?_set_ne h]

theorem applyDivMatch_snd_getElem {st : List (Option Str) × List (Option Str)}
    {m : Nat × Str} {i : Nat} (h : m.1 ≠ i) :
    (applyDivMatch st m).2[i]? = st.2[i]? := by
  simp only [applyDivMatch]
  repeat' split
  all_goals simp [List.getElem?_set_ne h]

theorem foldl_applyDivMatch_preserves {i : Nat} :
    ∀ (ms : List (Nat × Str)) (st : List (Option Str) × List (Option Str)),
      (∀ m ∈ ms, m.1 ≠ i) →
      (ms.foldl applyDivMatch st).1[i]? = st.1[i]? ∧
        (ms.foldl applyDivMatch st).2[i]? = st.2[i]? := by
  intro ms
  induction ms with
  | nil => intro st _; exact ⟨rfl, rfl⟩
  | cons m t ih =>
    intro st hm
    simp only [List.foldl_cons]
    obtain ⟨ha, hb⟩ :=
      ih (applyDivMatch st m) (fun x hx => hm x (List.mem_cons.mpr (Or.inr hx)))
    rw [ha, hb]
    exact ⟨applyDivMatch_fst_getElem (hm m (List.mem_cons.mpr (Or.inl rfl))),
           applyDivMatch_snd_getElem (hm m (List.mem_cons.mpr (Or.inl rfl)))⟩

theorem map_optGetD_eq_nil {l : List (Option Str)} {i : Nat}
    (h : (l[i]?).getD none = none) :
    (l.map (fun o => o.getD [])).getD i [] = [] := by
  rw [List.getD_eq_getElem?_getD, List.getElem?_map]
  cases hl : l[i]? with
  | none => simp
  | some o =>
    rw [hl] at h
    simp only [Option.getD_some] at h
    subst h
    simp

/-! ## Template evaluator (`template.py`) -/

/-- Python `\w` (modelled on ASCII): letters, digits, underscore. -/
def isWordChar (c : Char) : Bool := c.isAlphanum || c = '_'

/-- Python `\s` / `str.strip()` whitespace (modelled on ASCII). -/
def isPySpace (c : Char) : Bool :=
  c = ' ' || c = '\t' || c = '\n' || c = '\r' || c = Char.ofNat 11 || c = Char.ofNat 12

/-- `str.strip()`: drop leading and trailing whitespace. -/
def pyStrip (s : Str) : Str :=
  ((s.dropWhile isPySpace).reverse.dropWhile isPySpace).reverse

/-- A stored variable `{"value": ..., "prompt": ...}`; `prompt = none` models
Python `None` (a directly assigned literal). -/
structure VarEntry where
  value : Str
  prompt : Option Str
deriving DecidableEq, Repr

/-- The variable mapping `name → {value, prompt}`, an insertion-ordered dict. -/
abbrev VarMap := List (Str × VarEntry)

/-- `name in variables` / `variables[name]` lookup. -/
def dictLookup (vars : VarMap) (name : Str) : Option VarEntry :=
  (vars.find? (fun p => p.1 == name)).map Prod.snd

/-- `variables[name] = entry`: replace in place, or append a new key. -/
def dictInsert (vars : VarMap) (name : Str) (e : VarEntry) : VarMap :=
  match vars with
  | [] => [(name, e)]
  | p :: t => if p.1 == name then (name, e) :: t else p :: dictInsert t name e

/-- The `variable_instances` per-occurrence counters of
`Template._process_template`. -/
abbrev InstMap := List (Str × Nat)

def instLookup (m : InstMap) (name : Str) : Option Nat :=
  (m.find? (fun p => p.1 == name)).map Prod.snd

def instInsert (m : InstMap) (name : Str) (v : Nat) : InstMap :=
  match m with
  | [] => [(name, v)]
  | p :: t => if p.1 == name then (name, v) :: t else p :: instInsert t name v

/-- Decimal rendering of a natural number. -/
def natToStr (n : Nat) : Str := (Nat.repr n).toList

/-- `Template._resolve_variable_value_from_datasource`: a value of the shape
`$ref` that resolves as a data source renders to the data source's rendering;
otherwise the value itself.  As at every call site of
`Template._render_data_source`, "resolves" means the resolver returns
something other than the literal `"$" ++ ref`. -/
def resolveValueFromDatasource (renderDS : Str → Str) (value : Str) : Str :=
  match value with
  | '$' :: ref =>
    let rendered := renderDS ref
    if rendered ≠ '$' :: ref then rendered else value
  | _ => value

/-- The `<span class="var-ref" ...>` wrapper emitted for a resolved reference
in `output_only` mode. -/
def varRefSpan (name : Str) (inst : Nat) (value resolved : Str) : Str :=
  "<span class=\"var-ref\" data-var=\"".toList ++ name
    ++ "\" data-instance=\"".toList ++ natToStr inst
    ++ "\" data-value=\"".toList ++ value
    ++ "\">".toList ++ resolved ++ "</span>".toList

/-- The replacement for one matched reference in `output_only` mode
(`substitute_variable` / `substitute_curly_variable` /
`substitute_simple_curly_variable` of `Template._process_template`): a known
variable is span-wrapped with a bumped per-occurrence instance counter; else a
resolving data source renders; else the matched text `keep` stays. -/
def refReplacementPlain (vars : VarMap) (renderDS : Str → Str) (inst : InstMap)
    (name keep : Str) : Str × InstMap :=
  match dictLookup vars name with
  | some e =>
    let n := (instLookup inst name).getD 0 + 1
    let resolved := resolveValueFromDatasource renderDS e.value
    (varRefSpan name n e.value resolved, instInsert inst name n)
  | none =>
    let rendered := renderDS name
    if rendered ≠ '$' :: name then (rendered, inst) else (keep, inst)

/-- The replacement for one matched reference in `output_and_variables` mode
(`substitute_with_references` of
`Template._process_template_with_references`): a known variable becomes the
marker `$$name:{resolved}`; else a resolving data source renders; else the
matched text `keep` stays. -/
def refReplacementMarked (vars : VarMap) (renderDS : Str → Str)
    (name keep : Str) : Str :=
  match dictLookup vars name with
  | some e =>
    let resolved := resolveValueFromDatasource renderDS e.value
    "$$".toList ++ name ++ ":\x7b".toList ++ resolved ++ "\x7d".toList
  | none =>
    let rendered := renderDS name
    if rendered ≠ '$' :: name then rendered else keep

/-- The replacement for one matched reference in SUM/AVG argument substitution
(`Template._substitute_variables_in_content`): the plain resolved value, no
span wrapping. -/
def refReplacementContent (vars : VarMap) (renderDS : Str → Str)
    (name keep : Str) : Str :=
  match dictLookup vars name with
  | some e => resolveValueFromDatasource renderDS e.value
  | none =>
    let rendered := renderDS name
    if rendered ≠ '$' :: name then rendered else keep

/-- `re.sub(r"\$(\w+)", repl, s)` as a fuel-driven scanner: at each `$`
followed by a non-empty maximal word run the replacement for that name is
emitted, else the character is copied; the per-occurrence state `σ` (instance
counters, or `Unit`) threads left to right.  Every step consumes at least one
character, so fuel equal to the input length suffices. -/
def subDollar {σ : Type} (repl : σ → Str → Str → Str × σ) :
    Nat → σ → Str → Str × σ
  | 0, st, _ => ([], st)
  | _ + 1, st, [] => ([], st)
  | fuel + 1, st, c :: t =>
    if c = '$' ∧ ¬ (t.takeWhile isWordChar).isEmpty then
      let run := t.takeWhile isWordChar
      let rep := repl st run ('$' :: run)
      let pr := subDollar repl fuel rep.2 (t.drop run.length)
      (rep.1 ++ pr.1, pr.2)
    else
      let pr := subDollar repl fuel st t
      (c :: pr.1, pr.2)

/-- `re.sub(r"\{\{\$(\w+)\}\}", repl, s)` as a fuel-driven scanner: a match is
`{{$` + non-empty word run + `}}`; on failure the scan advances one
character. -/
def subCurlyDollar {σ : Type} (repl : σ → Str → Str → Str × σ) :
    Nat → σ → Str → Str × σ
  | 0, st, _ => ([], st)
  | _ + 1, st, [] => ([], st)
  | fuel + 1, st, c :: t =>
    if c = '\x7b' ∧ "\x7b$".toList.isPrefixOf t
        ∧ ¬ ((t.drop 2).takeWhile isWordChar).isEmpty
        ∧ "\x7d\x7d".toList.isPrefixOf
            ((t.drop 2).drop ((t.drop 2).takeWhile isWordChar).length) then
      let run := (t.drop 2).takeWhile isWordChar
      let rep := repl st run ("\x7b\x7b$".toList ++ run ++ "\x7d\x7d".toList)
      let pr := subCurlyDollar repl fuel rep.2 ((t.drop 2).drop (run.length + 2))
      (rep.1 ++ pr.1, pr.2)
    else
      let pr := subCurlyDollar repl fuel st t
      (c :: pr.1, pr.2)

/-- `re.sub(r"\{\{(\w+)\}\}", repl, s)` as a fuel-driven scanner: a match is
`{{` + non-empty word run + `}}`.  The source guards against assignment syntax
(`if ':=' in full_match: return full_match`); the guard is kept although a
word-only match can never contain `:=`. -/
def subSimpleCurly {σ : Type} (repl : σ → Str → Str → Str × σ) :
    Nat → σ → Str → Str × σ
  | 0, st, _ => ([], st)
  | _ + 1, st, [] => ([], st)
  | fuel + 1, st, c :: t =>
    if c = '\x7b' ∧ "\x7b".toList.isPrefixOf t
        ∧ ¬ ((t.drop 1).takeWhile isWordChar).isEmpty
        ∧ "\x7d\x7d".toList.isPrefixOf
            ((t.drop 1).drop ((t.drop 1).takeWhile isWordChar).length) then
      let run := (t.drop 1).takeWhile isWordChar
      let full := "\x7b\x7b".toList ++ run ++ "\x7d\x7d".toList
      let rep := if containsSub ":=".toList full then (full, st) else repl st run full
      let pr := subSimpleCurly repl fuel rep.2 ((t.drop 1).drop (run.length + 2))
      (rep.1 ++ pr.1, pr.2)
    else
      let pr := subSimpleCurly repl fuel st t
      (c :: pr.1, pr.2)

/-- `substitute_all_variables` of `Template._process_template`: the three
reference substitution passes (`$name`, then `{{$name}}`, then `{{name}}`),
each over the previous pass's output, threading the shared
`variable_instances` counters. -/
def substituteAllVariables (vars : VarMap) (renderDS : Str → Str)
    (inst : InstMap) (text : Str) : Str × InstMap :=
  let p1 := subDollar (refReplacementPlain vars renderDS) text.length inst text
  let p2 := subCurlyDollar (refReplacementPlain vars renderDS) p1.1.length p1.2 p1.1
  subSimpleCurly (refReplacementPlain vars renderDS) p2.1.length p2.2 p2.1

/-- `substitute_with_references` of
`Template._process_template_with_references`: the same three passes with the
`$$name:{value}` marker replacement (no instance counters). -/
def substituteWithReferences (vars : VarMap) (renderDS : Str → Str)
    (text : Str) : Str :=
  let repl : Unit → Str → Str → Str × Unit :=
    fun _ name keep => (refReplacementMarked vars renderDS name keep, ())
  let p1 := subDollar repl text.length () text
  let p2 := subCurlyDollar repl p1.1.length () p1.1
  (subSimpleCurly repl p2.1.length () p2.1).1

/-- `Template._substitute_variables_in_content`: only the `$name` and
`{{$name}}` passes, with plain value replacement. -/
def substituteVariablesInContent (vars : VarMap) (renderDS : Str → Str)
    (content : Str) : Str :=
  let repl : Unit → Str → Str → Str × Unit :=
    fun _ name keep => (refReplacementContent vars renderDS name keep, ())
  let p1 := subDollar repl content.length () content
  (subCurlyDollar repl p1.1.length () p1.1).1

/-- Separator class of `re.split(r"[,;\s]+", ...)`. -/
def isSepChar (c : Char) : Bool := c = ',' || c = ';' || isPySpace c

/-- Fuel-driven worker for `splitSeps`. -/
def splitSepsGo : Nat → Str → List Str
  | 0, _ => [[]]
  | _ + 1, [] => [[]]
  | fuel + 1, c :: t =>
    if isSepChar c then [] :: splitSepsGo fuel (t.dropWhile isSepChar)
    else
      match splitSepsGo fuel t with
      | [] => [[c]]
      | h :: r => (c :: h) :: r

/-- `re.split(r"[,;\s]+", s)`: split on maximal separator runs (adjacent
separators produce no interior empty pieces; a leading or trailing run yields
an empty first or last piece). -/
def splitSeps (s : Str) : List Str := splitSepsGo s.length s

/-- Value of a digit string. -/
def digitsToNat (ds : Str) : Nat := ds.foldl (fun n c => n * 10 + (c.toNat - 48)) 0

/-- Python `float(part)` on finite decimal literals
(`[+-]? (d+ (.d*)? | .d+) ([eE][+-]?d+)?`), modelled exactly over `ℚ`
(the rounding of decimal literals to binary floating point is not modelled,
nor are `inf`/`nan`/hex/underscore forms); anything else is a `ValueError`,
i.e. `none`. -/
def pyParseFloat (s : Str) : Option ℚ :=
  let sgn : ℚ × Str :=
    match s with
    | '+' :: t => (1, t)
    | '-' :: t => (-1, t)
    | _ => (1, s)
  let intDigits := sgn.2.takeWhile Char.isDigit
  let s2 := sgn.2.drop intDigits.length
  let fracPart : Str × Str :=
    match s2 with
    | '.' :: t => (t.takeWhile Char.isDigit, t.drop (t.takeWhile Char.isDigit).length)
    | _ => ([], s2)
  if intDigits = [] ∧ fracPart.1 = [] then none
  else
    let mant : ℚ := (digitsToNat intDigits : ℚ)
      + (digitsToNat fracPart.1 : ℚ) / ((10 : ℚ) ^ fracPart.1.length)
    match fracPart.2 with
    | [] => some (sgn.1 * mant)
    | e :: t =>
      if e = 'e' ∨ e = 'E' then
        let esgn : Int × Str :=
          match t with
          | '+' :: u => (1, u)
          | '-' :: u => (-1, u)
          | _ => (1, t)
        let eds := esgn.2.takeWhile Char.isDigit
        if eds = [] ∨ esgn.2.drop eds.length ≠ [] then none
        else some (sgn.1 * mant * (10 : ℚ) ^ (esgn.1 * (digitsToNat eds : Int)))
      else none

/-- Fractional decimal digits of `0 ≤ f < 1`, at most `n` of them, stopping
early when the remainder is zero. -/
def fracDigitsGo : Nat → ℚ → Str
  | 0, _ => []
  | n + 1, f =>
    if f = 0 then []
    else
      let f10 := f * 10
      let d := f10.floor.toNat
      Char.ofNat (48 + d) :: fracDigitsGo n (f10 - (d : ℚ))

/-- Python `str(x)` for a float result, modelled over exact rationals:
an integral value renders as `"<int>.0"`, a non-integral one as its decimal
expansion to at most 17 fractional digits (floats being embedded as exact
rationals, terminating decimals such as `0.5` print exactly; the 17-digit cut
of a non-terminating expansion approximates CPython's shortest-roundtrip
repr, which no claim exercises). -/
def ratToPyStr (q : ℚ) : Str :=
  let sign : Str := if q < 0 then ['-'] else []
  let q' := |q|
  let ip := q'.floor.toNat
  let frac := q' - (ip : ℚ)
  if frac = 0 then sign ++ natToStr ip ++ ".0".toList
  else sign ++ natToStr ip ++ ['.'] ++ fracDigitsGo 17 frac

/-- `Template._parse_numbers`: strip, split on `[,;\s]+`, keep the tokens that
parse as floats, silently dropping the rest. -/
def parseNumbers (content : Str) : List ℚ :=
  (splitSeps (pyStrip content)).filterMap (fun part =>
    let part := pyStrip part
    if part = [] then none else pyParseFloat part)

/-- `Template._process_sum`: substitute references in the argument, parse the
numbers, return `"0"` when none survive, else `str(sum(numbers))`.  (The
source's `except` wrapper is unreachable here: every step is total.) -/
def processSum (vars : VarMap) (renderDS : Str → Str) (content : Str) : Str :=
  let content := substituteVariablesInContent vars renderDS content
  let numbers := parseNumbers content
  if numbers = [] then "0".toList
  else ratToPyStr (numbers.foldl (· + ·) 0)

/-- `Template._process_avg`: like `_process_sum` but `str(sum/len)`. -/
def processAvg (vars : VarMap) (renderDS : Str → Str) (content : Str) : Str :=
  let content := substituteVariablesInContent vars renderDS content
  let numbers := parseNumbers content
  if numbers = [] then "0".toList
  else ratToPyStr (numbers.foldl (· + ·) 0 / (numbers.length : ℚ))

/-- `re.match(r"^LLM\((.*)\)$", s)` (and the SUM/AVG patterns): `.` does not
match a newline and `$` also matches just before one trailing newline, so the
match succeeds iff after stripping at most one trailing newline the text is
`pre ++ mid ++ ")"` with a newline-free `mid`; the greedy group captures
everything up to the last `)`. -/
def matchCallWrapper (pre : Str) (s : Str) : Option Str :=
  let s' := if s.getLast? = some '\n' then s.dropLast else s
  if pre.isPrefixOf s' ∧ s'.getLast? = some ')' ∧ pre.length + 1 ≤ s'.length then
    let mid := (s'.drop pre.length).dropLast
    if '\n' ∈ mid then none else some mid
  else none

/-- The suffix appended (in `output_only` mode only) to a new or changed LLM
prompt before the completion call — and before the prompt is stored. -/
def llmSuffix : Str := "\n\n Directly return results.".toList

/-- State threaded through one `Template._process_template` call: the variable
dict (mutated in place), the `variable_instances` counters, and the log of
prompts sent to the completion collaborator. -/
structure EvalState where
  vars : VarMap
  inst : InstMap
  calls : List Str
deriving DecidableEq, Repr

/-- `process_prompt_template` of `Template._process_template` (`output_only`):
substitute references inside the directive body, then dispatch on
`LLM(...)` / `SUM(...)` / `AVG(...)` / literal.  A cached LLM/SUM/AVG variable
(same stored prompt) is reused without a call; a fresh LLM prompt gets
`llmSuffix` appended before the call *and before being stored*; a completion
exception turns into an error-message return value without touching the
variables.  Returns the replacement text (which the caller discards). -/
def processDirectivePlain (client : Str → Except Str Str) (renderDS : Str → Str)
    (st : EvalState) (name rawContent : Str) : Str × EvalState :=
  let sub := substituteAllVariables st.vars renderDS st.inst rawContent
  let content := sub.1
  let st := { st with inst := sub.2 }
  match matchCallWrapper "LLM(".toList content with
  | some prompt =>
    if (dictLookup st.vars name).map VarEntry.prompt = some (some prompt) then
      (((dictLookup st.vars name).map VarEntry.value).getD [], st)
    else
      let prompt2 := prompt ++ llmSuffix
      let st := { st with calls := st.calls ++ [prompt2] }
      match client prompt2 with
      | Except.ok result =>
        (result, { st with vars := dictInsert st.vars name ⟨result, some prompt2⟩ })
      | Except.error e =>
        ("Error processing template: ".toList ++ e, st)
  | none =>
  match matchCallWrapper "SUM(".toList content with
  | some numbersContent =>
    if (dictLookup st.vars name).map VarEntry.prompt = some (some numbersContent) then
      (((dictLookup st.vars name).map VarEntry.value).getD [], st)
    else
      let result := processSum st.vars renderDS numbersContent
      (result, { st with vars := dictInsert st.vars name ⟨result, some numbersContent⟩ })
  | none =>
  match matchCallWrapper "AVG(".toList content with
  | some numbersContent =>
    if (dictLookup st.vars name).map VarEntry.prompt = some (some numbersContent) then
      (((dictLookup st.vars name).map VarEntry.value).getD [], st)
    else
      let result := processAvg st.vars renderDS numbersContent
      (result, { st with vars := dictInsert st.vars name ⟨result, some numbersContent⟩ })
  | none =>
    (content, { st with vars := dictInsert st.vars name ⟨content, none⟩ })

/-- `process_prompt_template` of `Template._process_template_with_references`
(`output_and_variables`): like the plain variant but with marker
substitution, no prompt suffix, the exception branch *does* store the error
message as the variable's value, and the replacement text is always `""`. -/
def processDirectiveMarked (client : Str → Except Str Str) (renderDS : Str → Str)
    (st : EvalState) (name rawContent : Str) : Str × EvalState :=
  let content := substituteWithReferences st.vars renderDS rawContent
  match matchCallWrapper "LLM(".toList content with
  | some prompt =>
    if (dictLookup st.vars name).map VarEntry.prompt = some (some prompt) then
      ([], st)
    else
      let st := { st with calls := st.calls ++ [prompt] }
      match client prompt with
      | Except.ok result =>
        ([], { st with vars := dictInsert st.vars name ⟨result, some prompt⟩ })
      | Except.error e =>
        let errEntry : VarEntry := ⟨"Error processing template: ".toList ++ e, some prompt⟩
        ([], { st with vars := dictInsert st.vars name errEntry })
  | none =>
  match matchCallWrapper "SUM(".toList content with
  | some numbersContent =>
    if (dictLookup st.vars name).map VarEntry.prompt = some (some numbersContent) then
      ([], st)
    else
      let result := processSum st.vars renderDS numbersContent
      ([], { st with vars := dictInsert st.vars name ⟨result, some numbersContent⟩ })
  | none =>
  match matchCallWrapper "AVG(".toList content with
  | some numbersContent =>
    if (dictLookup st.vars name).map VarEntry.prompt = some (some numbersContent) then
      ([], st)
    else
      let result := processAvg st.vars renderDS numbersContent
      ([], { st with vars := dictInsert st.vars name ⟨result, some numbersContent⟩ })
  | none =>
    ([], { st with vars := dictInsert st.vars name ⟨content, none⟩ })

/-- A segment of the template text under
`variable_pattern = r"\{\{(\w+):=(.*?)\}\}"`: a plain character or one
assignment directive. -/
inductive Seg where
  | lit (c : Char)
  | dir (name content : Str)
deriving DecidableEq, Repr

/-- One candidate of the directive pattern anchored at the start of `s`:
`{{`, a non-empty maximal word run, `:=`, then the non-greedy newline-free
body up to the first `}}`.  Returns `(name, body, rest after the match)`. -/
def matchDirectiveAt (s : Str) : Option (Str × Str × Str) :=
  if "\x7b\x7b".toList.isPrefixOf s then
    if (s.drop 2).takeWhile isWordChar = [] then none
    else if ":=".toList.isPrefixOf
        ((s.drop 2).drop ((s.drop 2).takeWhile isWordChar).length) then
      match splitFirst "\x7d\x7d".toList
          ((s.drop 2).drop (((s.drop 2).takeWhile isWordChar).length + 2)) with
      | some br =>
        if '\n' ∈ br.1 then none
        else some ((s.drop 2).takeWhile isWordChar, br.1, br.2)
      | none => none
    else none
  else none

/-- Fuel-driven worker for `scanDirectives`; every step consumes at least one
character. -/
def scanDirectivesGo : Nat → Str → List Seg
  | 0, _ => []
  | _ + 1, [] => []
  | fuel + 1, c :: t =>
    match matchDirectiveAt (c :: t) with
    | some m => Seg.dir m.1 m.2.1 :: scanDirectivesGo fuel m.2.2
    | none => Seg.lit c :: scanDirectivesGo fuel t

/-- `re.finditer(variable_pattern, template_text)` together with the
surrounding text: the non-overlapping directive matches in source order,
interleaved with the residual characters. -/
def scanDirectives (s : Str) : List Seg := scanDirectivesGo s.length s

/-- The shared main loop of both `_process_template*` methods: walk the
segments in source order, evaluating each directive for its side effects only
(`_ = process_prompt_template(match)` — its return value is discarded and the
directive's span contributes no output), accumulating the residual text. -/
def runSegs (step : EvalState → Str → Str → Str × EvalState) :
    List Seg → EvalState → Str × EvalState
  | [], st => ([], st)
  | Seg.lit c :: rest, st =>
    let pr := runSegs step rest st
    (c :: pr.1, pr.2)
  | Seg.dir name content :: rest, st =>
    let st' := (step st name content).2
    runSegs step rest st'

/-- `Template._process_template` (`output_only` mode): evaluate directives left
to right, then substitute references in the residual text; the
`variable_instances` counters are shared between directive-body substitution
and the final sweep.  Returns the rendered text, the updated variables and the
completion-call log. -/
def processTemplatePlain (client : Str → Except Str Str) (renderDS : Str → Str)
    (templateText : Str) (vars0 : VarMap) : Str × VarMap × List Str :=
  let run := runSegs (processDirectivePlain client renderDS)
    (scanDirectives templateText) ⟨vars0, [], []⟩
  let fin := substituteAllVariables run.2.vars renderDS run.2.inst run.1
  (fin.1, run.2.vars, run.2.calls)

/-- `Template._process_template_with_references` (`output_and_variables`
mode): first pass collects/evaluates the directives, second pass rewrites the
residual text's references to `$$name:{value}` markers. -/
def processTemplateWithReferences (client : Str → Except Str Str)
    (renderDS : Str → Str) (templateText : Str) (vars0 : VarMap) :
    Str × VarMap × List Str :=
  let run := runSegs (processDirectiveMarked client renderDS)
    (scanDirectives templateText) ⟨vars0, [], []⟩
  (substituteWithReferences run.2.vars renderDS run.1, run.2.vars, run.2.calls)

/-- `ExecutionResult`: rendered output, the variable dict, the rendering
mode. -/
structure ExecutionResult where
  rendered_output : Str := []
  «variables» : VarMap := []
  rendering_mode : Str := "output_only".toList
deriving DecidableEq, Repr

/-- `Template.execute`: dispatch on the rendering mode, process the template
against the existing result's variables, store rendered output and mode.
Also returns the log of completion calls made (for call-count statements).
The function is total: no exception escapes it. -/
def templateExecute (client : Str → Except Str Str) (renderDS : Str → Str)
    (templateText : Str) (existing : ExecutionResult) (mode : Str) :
    ExecutionResult × List Str :=
  if mode = "output_and_variables".toList then
    let p := processTemplateWithReferences client renderDS templateText existing.«variables»
    ({ rendered_output := p.1, «variables» := p.2.1, rendering_mode := mode }, p.2.2)
  else
    let p := processTemplatePlain client renderDS templateText existing.«variables»
    ({ rendered_output := p.1, «variables» := p.2.1, rendering_mode := mode }, p.2.2)

/-! ### Lemmas: neutral text and unresolved references through the passes -/

theorem takeWhile_word_append {name post : Str}
    (hw : ∀ c ∈ name, isWordChar c = true)
    (hpost : ∀ c ∈ post.head?, isWordChar c = false) :
    (name ++ post).takeWhile isWordChar = name := by
  induction name with
  | nil =>
    cases post with
    | nil => rfl
    | cons c t =>
      simp only [List.nil_append, List.takeWhile_cons]
      rw [hpost c (by simp)]
      simp
  | cons c rest ih =>
    simp only [List.cons_append, List.takeWhile_cons]
    rw [hw c (by simp)]
    simp only [if_true]
    rw [ih (fun x hx => hw x (by simp [hx]))]

theorem splitFirst_marker {p : Char} {pt a b : Str} (hmem : p ∉ a) :
    splitFirst (p :: pt) (a ++ (p :: pt) ++ b) = some (a, b) := by
  induction a with
  | nil =>
    show splitFirst (p :: pt) (p :: (pt ++ b)) = some ([], b)
    simp only [splitFirst]
    rw [if_pos (by rw [List.isPrefixOf_iff_prefix]; exact List.prefix_append _ _)]
    show some (([] : Str), ((p :: pt) ++ b).drop (p :: pt).length) = some ([], b)
    rw [List.drop_left]
  | cons d a' ih =>
    have hd : p ≠ d := fun h => hmem (h ▸ List.mem_cons_self _ _)
    show splitFirst (p :: pt) (d :: ((a' ++ (p :: pt)) ++ b)) = some (d :: a', b)
    simp only [splitFirst]
    rw [if_neg ?hneg, ih (fun h => hmem (List.mem_cons_of_mem _ h))]
    case hneg =>
      intro hpre
      rw [List.isPrefixOf_iff_prefix] at hpre
      obtain ⟨k, hk⟩ := hpre
      have hh := congrArg List.head? hk
      simp at hh
      exact hd hh

theorem subDollar_no_dollar {σ : Type} (repl : σ → Str → Str → Str × σ) :
    ∀ (fuel : Nat) (st : σ) (s : Str), s.length ≤ fuel → '$' ∉ s →
      subDollar repl fuel st s = (s, st) := by
  intro fuel
  induction fuel with
  | zero =>
    intro st s hle _
    have : s = [] := List.length_eq_zero.mp (Nat.le_zero.mp hle)
    subst this
    rfl
  | succ n ih =>
    intro st s hle hd
    cases s with
    | nil => rfl
    | cons c t =>
      have hc : ¬ (c = '$' ∧ ¬ (t.takeWhile isWordChar).isEmpty = true) := by
        rintro ⟨rfl, -⟩
        exact hd (List.mem_cons_self _ _)
      have hlt : t.length ≤ n := by
        simp only [List.length_cons] at hle
        omega
      simp only [subDollar]
      rw [if_neg hc, ih st t hlt (fun h => hd (List.mem_cons_of_mem _ h))]

theorem subCurlyDollar_no_brace {σ : Type} (repl : σ → Str → Str → Str × σ) :
    ∀ (fuel : Nat) (st : σ) (s : Str), s.length ≤ fuel → '\x7b' ∉ s →
      subCurlyDollar repl fuel st s = (s, st) := by
  intro fuel
  induction fuel with
  | zero =>
    intro st s hle _
    have : s = [] := List.length_eq_zero.mp (Nat.le_zero.mp hle)
    subst this
    rfl
  | succ n ih =>
    intro st s hle hd
    cases s with
    | nil => rfl
    | cons c t =>
      have hc : c ≠ '\x7b' := fun h => hd (h ▸ List.mem_cons_self _ _)
      have hlt : t.length ≤ n := by
        simp only [List.length_cons] at hle
        omega
      simp only [subCurlyDollar]
      rw [if_neg (by rintro ⟨h, -⟩; exact hc h),
        ih st t hlt (fun h => hd (List.mem_cons_of_mem _ h))]

theorem subSimpleCurly_no_brace {σ : Type} (repl : σ → Str → Str → Str × σ) :
    ∀ (fuel : Nat) (st : σ) (s : Str), s.length ≤ fuel → '\x7b' ∉ s →
      subSimpleCurly repl fuel st s = (s, st) := by
  intro fuel
  induction fuel with
  | zero =>
    intro st s hle _
    have : s = [] := List.length_eq_zero.mp (Nat.le_zero.mp hle)
    subst this
    rfl
  | succ n ih =>
    intro st s hle hd
    cases s with
    | nil => rfl
    | cons c t =>
      have hc : c ≠ '\x7b' := fun h => hd (h ▸ List.mem_cons_self _ _)
      have hlt : t.length ≤ n := by
        simp only [List.length_cons] at hle
        omega
      simp only [subSimpleCurly]
      rw [if_neg (by rintro ⟨h, -⟩; exact hc h),
        ih st t hlt (fun h => hd (List.mem_cons_of_mem _ h))]

theorem substituteAllVariables_neutral (vars : VarMap) (renderDS : Str → Str)
    (inst : InstMap) (s : Str) (hd : '$' ∉ s) (hb : '\x7b' ∉ s) :
    substituteAllVariables vars renderDS inst s = (s, inst) := by
  simp only [substituteAllVariables]
  rw [subDollar_no_dollar _ _ _ _ (le_refl _) hd]
  rw [subCurlyDollar_no_brace _ _ _ _ (le_refl _) hb]
  rw [subSimpleCurly_no_brace _ _ _ _ (le_refl _) hb]

theorem substituteWithReferences_neutral (vars : VarMap) (renderDS : Str → Str)
    (s : Str) (hd : '$' ∉ s) (hb : '\x7b' ∉ s) :
    substituteWithReferences vars renderDS s = s := by
  simp only [substituteWithReferences]
  rw [subDollar_no_dollar _ _ _ _ (le_refl _) hd]
  rw [subCurlyDollar_no_brace _ _ _ _ (le_refl _) hb]
  rw [subSimpleCurly_no_brace _ _ _ _ (le_refl _) hb]

theorem matchDirectiveAt_not_brace {c : Char} {t : Str} (hc : c ≠ '\x7b') :
    matchDirectiveAt (c :: t) = none := by
  unfold matchDirectiveAt
  rw [if_neg ?_]
  intro hpre
  rw [List.isPrefixOf_iff_prefix] at hpre
  obtain ⟨k, hk⟩ := hpre
  have hh := congrArg List.head? hk
  simp at hh
  exact hc hh.symm

theorem scanDirectivesGo_no_brace :
    ∀ (fuel : Nat) (s : Str), s.length ≤ fuel → '\x7b' ∉ s →
      scanDirectivesGo fuel s = s.map Seg.lit := by
  intro fuel
  induction fuel with
  | zero =>
    intro s hle _
    have : s = [] := List.length_eq_zero.mp (Nat.le_zero.mp hle)
    subst this
    rfl
  | succ n ih =>
    intro s hle hb
    cases s with
    | nil => rfl
    | cons c t =>
      have hc : c ≠ '\x7b' := fun h => hb (h ▸ List.mem_cons_self _ _)
      have hlt : t.length ≤ n := by
        simp only [List.length_cons] at hle
        omega
      simp only [scanDirectivesGo, matchDirectiveAt_not_brace hc]
      rw [ih t hlt (fun h => hb (List.mem_cons_of_mem _ h))]
      rfl

theorem scanDirectives_no_brace {s : Str} (hb : '\x7b' ∉ s) :
    scanDirectives s = s.map Seg.lit :=
  scanDirectivesGo_no_brace s.length s (le_refl _) hb

theorem runSegs_map_lit_append
    (step : EvalState → Str → Str → Str × EvalState) (xs : Str) :
    ∀ (rest : List Seg) (st : EvalState),
      runSegs step (xs.map Seg.lit ++ rest) st
        = (xs ++ (runSegs step rest st).1, (runSegs step rest st).2) := by
  induction xs with
  | nil => intro rest st; rfl
  | cons c t ih =>
    intro rest st
    simp only [List.map_cons, List.cons_append, runSegs, List.append_eq, ih]

theorem runSegs_map_lit (step : EvalState → Str → Str → Str × EvalState)
    (xs : Str) (st : EvalState) :
    runSegs step (xs.map Seg.lit) st = (xs, st) := by
  have := runSegs_map_lit_append step xs [] st
  simpa [runSegs] using this

theorem subDollar_unresolved_mid {σ : Type} (repl : σ → Str → Str → Str × σ)
    (name post : Str) (hname : name ≠ [])
    (hword : ∀ c ∈ name, isWordChar c = true)
    (hpost : '$' ∉ post)
    (hhead : ∀ c ∈ post.head?, isWordChar c = false)
    (hrepl : ∀ st, repl st name ('$' :: name) = ('$' :: name, st)) :
    ∀ (pre : Str), '$' ∉ pre →
      ∀ (fuel : Nat) (st : σ), (pre ++ '$' :: name ++ post).length ≤ fuel →
        subDollar repl fuel st (pre ++ '$' :: name ++ post)
          = (pre ++ '$' :: name ++ post, st) := by
  intro pre
  induction pre with
  | nil =>
    intro _ fuel st hle
    cases fuel with
    | zero => simp at hle
    | succ n =>
      show subDollar repl (n + 1) st ('$' :: (name ++ post))
          = (('$' :: name ++ post : Str), st)
      have hrun : (name ++ post).takeWhile isWordChar = name :=
        takeWhile_word_append hword hhead
      simp only [subDollar]
      rw [if_pos ?hcond]
      case hcond =>
        refine ⟨by trivial, ?_⟩
        rw [hrun]
        simpa [List.isEmpty_iff] using hname
      simp only [hrun, hrepl st]
      rw [List.drop_left]
      rw [subDollar_no_dollar _ _ _ _ ?hfuel hpost]
      case hfuel =>
        have := hle
        simp only [List.nil_append, List.length_cons, List.length_append] at this ⊢
        omega
  | cons c pre' ih =>
    intro hdpre fuel st hle
    cases fuel with
    | zero => simp at hle
    | succ n =>
      have hc : c ≠ '$' := fun h => hdpre (h ▸ List.mem_cons_self _ _)
      show subDollar repl (n + 1) st (c :: (pre' ++ '$' :: name ++ post))
          = ((c :: (pre' ++ '$' :: name ++ post) : Str), st)
      simp only [subDollar]
      rw [if_neg (by rintro ⟨h, -⟩; exact hc h)]
      rw [ih (fun h => hdpre (List.mem_cons_of_mem _ h)) n st ?hfuel]
      case hfuel =>
        have := hle
        simp only [List.cons_append, List.length_cons] at this
        omega

theorem matchCallWrapper_append (pre prompt : Str) (hnl : '\n' ∉ prompt) :
    matchCallWrapper pre (pre ++ prompt ++ [')']) = some prompt := by
  have hlast : (pre ++ prompt ++ [')']).getLast? = some ')' :=
    List.getLast?_concat _
  have hform : pre ++ prompt ++ [')'] = pre ++ (prompt ++ [')']) :=
    List.append_assoc _ _ _
  have hs2 : (if (pre ++ prompt ++ [')']).getLast? = some '\n'
      then (pre ++ prompt ++ [')']).dropLast else pre ++ prompt ++ [')'])
      = pre ++ prompt ++ [')'] := by
    rw [hlast]
    simp
  unfold matchCallWrapper
  simp only [hs2]
  rw [if_pos ?hc]
  case hc =>
    refine ⟨?_, hlast, ?_⟩
    · rw [List.isPrefixOf_iff_prefix, hform]
      exact List.prefix_append _ _
    · simp only [List.length_append, List.length_cons, List.length_nil]
      omega
  rw [hform, List.drop_left, List.dropLast_concat]
  rw [if_neg hnl]

theorem matchDirectiveAt_directive (name content post : Str)
    (hname : name ≠ []) (hword : ∀ c ∈ name, isWordChar c = true)
    (hcbr : '\x7d' ∉ content) (hcnl : '\n' ∉ content) :
    matchDirectiveAt ("\x7b\x7b".toList ++ name ++ ":=".toList ++ content
        ++ "\x7d\x7d".toList ++ post)
      = some (name, content, post) := by
  have hT : "\x7b\x7b".toList ++ name ++ ":=".toList ++ content
        ++ "\x7d\x7d".toList ++ post
      = '\x7b' :: '\x7b' :: (name ++ (":=".toList ++ (content
        ++ ("\x7d\x7d".toList ++ post)))) := by
    simp [List.append_assoc]
  rw [hT]
  unfold matchDirectiveAt
  rw [if_pos ?hpre]
  case hpre =>
    rw [List.isPrefixOf_iff_prefix]
    exact ⟨_, rfl⟩
  have hdrop2 : ('\x7b' :: '\x7b' :: (name ++ (":=".toList ++ (content
        ++ ("\x7d\x7d".toList ++ post))))).drop 2
      = name ++ (":=".toList ++ (content ++ ("\x7d\x7d".toList ++ post))) := rfl
  rw [hdrop2]
  have hrun : (name ++ (":=".toList ++ (content
        ++ ("\x7d\x7d".toList ++ post)))).takeWhile isWordChar = name := by
    apply takeWhile_word_append hword
    intro c hc
    simp at hc
    subst hc
    rfl
  rw [hrun, if_neg hname, if_pos ?hpre2]
  case hpre2 =>
    rw [List.drop_left, List.isPrefixOf_iff_prefix]
    exact List.prefix_append _ _
  have hdropn : (name ++ (":=".toList ++ (content
        ++ ("\x7d\x7d".toList ++ post)))).drop (name.length + 2)
      = content ++ ("\x7d\x7d".toList ++ post) := by
    rw [show name ++ (":=".toList ++ (content ++ ("\x7d\x7d".toList ++ post)))
        = (name ++ ":=".toList) ++ (content ++ ("\x7d\x7d".toList ++ post))
      from (List.append_assoc _ _ _).symm]
    exact List.drop_left' (by simp)
  rw [hdropn]
  have hsf : splitFirst "\x7d\x7d".toList (content ++ ("\x7d\x7d".toList ++ post))
      = some (content, post) := by
    rw [show content ++ ("\x7d\x7d".toList ++ post)
        = content ++ "\x7d\x7d".toList ++ post from (List.append_assoc _ _ _).symm]
    exact splitFirst_marker hcbr
  rw [hsf]
  show (if '\n' ∈ content then none
      else some (name, content, post)) = some (name, content, post)
  rw [if_neg hcnl]

theorem scanDirectivesGo_single :
    ∀ (fuel : Nat) (pre : Str), '\x7b' ∉ pre →
      ∀ (name content post : Str), name ≠ [] →
        (∀ c ∈ name, isWordChar c = true) → '\x7d' ∉ content → '\n' ∉ content →
        '\x7b' ∉ post →
        (pre ++ "\x7b\x7b".toList ++ name ++ ":=".toList ++ content
          ++ "\x7d\x7d".toList ++ post).length ≤ fuel →
        scanDirectivesGo fuel (pre ++ "\x7b\x7b".toList ++ name ++ ":=".toList
            ++ content ++ "\x7d\x7d".toList ++ post)
          = pre.map Seg.lit ++ Seg.dir name content :: post.map Seg.lit := by
  intro fuel
  induction fuel with
  | zero =>
    intro pre _ name content post _ _ _ _ _ hle
    exfalso
    have h2 : ("\x7b\x7b".toList : Str).length = 2 := rfl
    simp only [List.length_append, Nat.le_zero] at hle
    omega
  | succ n ih =>
    intro pre hpre name content post hname hword hcbr hcnl hpost hle
    cases pre with
    | nil =>
      have hT : ([] : Str) ++ "\x7b\x7b".toList ++ name ++ ":=".toList ++ content
            ++ "\x7d\x7d".toList ++ post
          = '\x7b' :: ('\x7b' :: (name ++ (":=".toList ++ (content
            ++ ("\x7d\x7d".toList ++ post))))) := by
        simp [List.append_assoc]
      rw [hT]
      simp only [scanDirectivesGo]
      rw [← hT]
      have hm := matchDirectiveAt_directive name content post hname hword hcbr hcnl
      rw [show ([] : Str) ++ "\x7b\x7b".toList ++ name ++ ":=".toList ++ content
          ++ "\x7d\x7d".toList ++ post
        = "\x7b\x7b".toList ++ name ++ ":=".toList ++ content
          ++ "\x7d\x7d".toList ++ post from by simp]
      rw [hm]
      show Seg.dir name content :: scanDirectivesGo n post
        = ([] : Str).map Seg.lit ++ Seg.dir name content :: post.map Seg.lit
      rw [scanDirectivesGo_no_brace n post ?hfl hpost]
      case hfl =>
        have h2 : ("\x7b\x7b".toList : Str).length = 2 := rfl
        simp only [List.length_append] at hle
        omega
      rfl
    | cons c pre' =>
      have hc : c ≠ '\x7b' := fun h => hpre (h ▸ List.mem_cons_self _ _)
      show scanDirectivesGo (n + 1) (c :: (pre' ++ "\x7b\x7b".toList ++ name
          ++ ":=".toList ++ content ++ "\x7d\x7d".toList ++ post))
        = Seg.lit c :: (pre'.map Seg.lit ++ Seg.dir name content :: post.map Seg.lit)
      simp only [scanDirectivesGo, matchDirectiveAt_not_brace hc]
      rw [ih pre' (fun h => hpre (List.mem_cons_of_mem _ h)) name content post
        hname hword hcbr hcnl hpost ?hfl]
      case hfl =>
        simp only [List.cons_append, List.length_cons, List.length_append] at hle ⊢
        omega
theorem refReplacementPlain_unresolved (vars : VarMap) (renderDS : Str → Str)
    {name : Str} (hlookup : dictLookup vars name = none)
    (hds : renderDS name = '$' :: name) (inst : InstMap) :
    refReplacementPlain vars renderDS inst name ('$' :: name)
      = ('$' :: name, inst) := by
  unfold refReplacementPlain
  rw [hlookup]
  simp [hds]

theorem refReplacementMarked_unresolved (vars : VarMap) (renderDS : Str → Str)
    {name : Str} (hlookup : dictLookup vars name = none)
    (hds : renderDS name = '$' :: name) :
    refReplacementMarked vars renderDS name ('$' :: name) = '$' :: name := by
  unfold refReplacementMarked
  rw [hlookup]
  simp [hds]

theorem not_mem_word_list {c : Char} {name : Str}
    (hword : ∀ x ∈ name, isWordChar x = true) (hc : isWordChar c = false) :
    c ∉ name :=
  fun h => by rw [hword c h] at hc; exact absurd hc (by decide)

theorem substituteAllVariables_unresolved_ref (vars : VarMap)
    (renderDS : Str → Str) (inst : InstMap) (name pre post : Str)
    (hname : name ≠ []) (hword : ∀ c ∈ name, isWordChar c = true)
    (hpre : '$' ∉ pre ∧ '\x7b' ∉ pre) (hpost : '$' ∉ post ∧ '\x7b' ∉ post)
    (hhead : ∀ c ∈ post.head?, isWordChar c = false)
    (hlookup : dictLookup vars name = none)
    (hds : renderDS name = '$' :: name) :
    substituteAllVariables vars renderDS inst (pre ++ '$' :: name ++ post)
      = (pre ++ '$' :: name ++ post, inst) := by
  have hnb : '\x7b' ∉ pre ++ '$' :: name ++ post := by
    intro h
    rcases List.mem_append.mp h with h | h
    · rcases List.mem_append.mp h with h | h
      · exact hpre.2 h
      · rcases List.mem_cons.mp h with h | h
        · exact absurd h.symm (by decide)
        · exact not_mem_word_list hword (by decide) h
    · exact hpost.2 h
  simp only [substituteAllVariables]
  rw [subDollar_unresolved_mid (refReplacementPlain vars renderDS) name post
    hname hword hpost.1 hhead
    (fun st => refReplacementPlain_unresolved vars renderDS hlookup hds st)
    pre hpre.1 _ inst (le_refl _)]
  rw [subCurlyDollar_no_brace _ _ _ _ (le_refl _) hnb]
  rw [subSimpleCurly_no_brace _ _ _ _ (le_refl _) hnb]

theorem substituteWithReferences_unresolved_ref (vars : VarMap)
    (renderDS : Str → Str) (name pre post : Str)
    (hname : name ≠ []) (hword : ∀ c ∈ name, isWordChar c = true)
    (hpre : '$' ∉ pre ∧ '\x7b' ∉ pre) (hpost : '$' ∉ post ∧ '\x7b' ∉ post)
    (hhead : ∀ c ∈ post.head?, isWordChar c = false)
    (hlookup : dictLookup vars name = none)
    (hds : renderDS name = '$' :: name) :
    substituteWithReferences vars renderDS (pre ++ '$' :: name ++ post)
      = pre ++ '$' :: name ++ post := by
  have hnb : '\x7b' ∉ pre ++ '$' :: name ++ post := by
    intro h
    rcases List.mem_append.mp h with h | h
    · rcases List.mem_append.mp h with h | h
      · exact hpre.2 h
      · rcases List.mem_cons.mp h with h | h
        · exact absurd h.symm (by decide)
        · exact not_mem_word_list hword (by decide) h
    · exact hpost.2 h
  simp only [substituteWithReferences]
  rw [subDollar_unresolved_mid _ name post hname hword hpost.1 hhead
    (fun st => by
      simp [refReplacementMarked_unresolved vars renderDS hlookup hds])
    pre hpre.1 _ () (le_refl _)]
  rw [subCurlyDollar_no_brace _ _ _ _ (le_refl _) hnb]
  rw [subSimpleCurly_no_brace _ _ _ _ (le_refl _) hnb]

theorem brace_not_mem_ref {name pre post : Str}
    (hword : ∀ c ∈ name, isWordChar c = true)
    (hpre : '\x7b' ∉ pre) (hpost : '\x7b' ∉ post) :
    '\x7b' ∉ pre ++ '$' :: name ++ post := by
  intro h
  rcases List.mem_append.mp h with h | h
  · rcases List.mem_append.mp h with h | h
    · exact hpre h
    · rcases List.mem_cons.mp h with h | h
      · exact absurd h.symm (by decide)
      · exact not_mem_word_list hword (by decide) h
  · exact hpost h

theorem processTemplatePlain_unresolved_ref (client : Str → Except Str Str)
    (renderDS : Str → Str) (vars0 : VarMap) (name pre post : Str)
    (hname : name ≠ []) (hword : ∀ c ∈ name, isWordChar c = true)
    (hpre : '$' ∉ pre ∧ '\x7b' ∉ pre) (hpost : '$' ∉ post ∧ '\x7b' ∉ post)
    (hhead : ∀ c ∈ post.head?, isWordChar c = false)
    (hlookup : dictLookup vars0 name = none)
    (hds : renderDS name = '$' :: name) :
    processTemplatePlain client renderDS (pre ++ '$' :: name ++ post) vars0
      = (pre ++ '$' :: name ++ post, vars0, []) := by
  simp only [processTemplatePlain]
  rw [scanDirectives_no_brace (brace_not_mem_ref hword hpre.2 hpost.2)]
  rw [runSegs_map_lit]
  rw [substituteAllVariables_unresolved_ref vars0 renderDS [] name pre post
    hname hword hpre hpost hhead hlookup hds]

theorem processTemplateWithReferences_unresolved_ref
    (client : Str → Except Str Str)
    (renderDS : Str → Str) (vars0 : VarMap) (name pre post : Str)
    (hname : name ≠ []) (hword : ∀ c ∈ name, isWordChar c = true)
    (hpre : '$' ∉ pre ∧ '\x7b' ∉ pre) (hpost : '$' ∉ post ∧ '\x7b' ∉ post)
    (hhead : ∀ c ∈ post.head?, isWordChar c = false)
    (hlookup : dictLookup vars0 name = none)
    (hds : renderDS name = '$' :: name) :
    processTemplateWithReferences client renderDS (pre ++ '$' :: name ++ post) vars0
      = (pre ++ '$' :: name ++ post, vars0, []) := by
  simp only [processTemplateWithReferences]
  rw [scanDirectives_no_brace (brace_not_mem_ref hword hpre.2 hpost.2)]
  rw [runSegs_map_lit]
  rw [substituteWithReferences_unresolved_ref vars0 renderDS name pre post
    hname hword hpre hpost hhead hlookup hds]

theorem content_llm_no_dollar {prompt : Str} (h : '$' ∉ prompt) :
    '$' ∉ "LLM(".toList ++ prompt ++ [')'] := by
  intro hm
  rcases List.mem_append.mp hm with hm | hm
  · rcases List.mem_append.mp hm with hm | hm
    · exact absurd hm (by decide)
    · exact h hm
  · exact absurd hm (by decide)

theorem content_llm_no_brace {prompt : Str} (h : '\x7b' ∉ prompt) :
    '\x7b' ∉ "LLM(".toList ++ prompt ++ [')'] := by
  intro hm
  rcases List.mem_append.mp hm with hm | hm
  · rcases List.mem_append.mp hm with hm | hm
    · exact absurd hm (by decide)
    · exact h hm
  · exact absurd hm (by decide)

theorem content_llm_no_rbrace {prompt : Str} (h : '\x7d' ∉ prompt) :
    '\x7d' ∉ "LLM(".toList ++ prompt ++ [')'] := by
  intro hm
  rcases List.mem_append.mp hm with hm | hm
  · rcases List.mem_append.mp hm with hm | hm
    · exact absurd hm (by decide)
    · exact h hm
  · exact absurd hm (by decide)

theorem content_llm_no_newline {prompt : Str} (h : '\n' ∉ prompt) :
    '\n' ∉ "LLM(".toList ++ prompt ++ [')'] := by
  intro hm
  rcases List.mem_append.mp hm with hm | hm
  · rcases List.mem_append.mp hm with hm | hm
    · exact absurd hm (by decide)
    · exact h hm
  · exact absurd hm (by decide)

theorem processDirectivePlain_llm_error (client : Str → Except Str Str)
    (renderDS : Str → Str) (vars0 : VarMap) (name prompt e : Str)
    (hplain : client (prompt ++ llmSuffix) = Except.error e)
    (hlookup : dictLookup vars0 name = none)
    (hnl : '\n' ∉ prompt) (hd : '$' ∉ prompt) (hb : '\x7b' ∉ prompt) :
    processDirectivePlain client renderDS ⟨vars0, [], []⟩ name
        ("LLM(".toList ++ prompt ++ [')'])
      = ("Error processing template: ".toList ++ e,
         ⟨vars0, [], [prompt ++ llmSuffix]⟩) := by
  simp only [processDirectivePlain]
  rw [substituteAllVariables_neutral vars0 renderDS [] _
    (content_llm_no_dollar hd) (content_llm_no_brace hb)]
  rw [matchCallWrapper_append "LLM(".toList prompt hnl]
  rw [hlookup]
  simp only [Option.map_none]
  rw [if_neg (by simp)]
  rw [hplain]
  simp

theorem processDirectiveMarked_llm_error (client : Str → Except Str Str)
    (renderDS : Str → Str) (vars0 : VarMap) (name prompt e : Str)
    (hmarked : client prompt = Except.error e)
    (hlookup : dictLookup vars0 name = none)
    (hnl : '\n' ∉ prompt) (hd : '$' ∉ prompt) (hb : '\x7b' ∉ prompt) :
    processDirectiveMarked client renderDS ⟨vars0, [], []⟩ name
        ("LLM(".toList ++ prompt ++ [')'])
      = ([], ⟨dictInsert vars0 name
          ⟨"Error processing template: ".toList ++ e, some prompt⟩,
         [], [prompt]⟩) := by
  simp only [processDirectiveMarked]
  rw [substituteWithReferences_neutral vars0 renderDS _
    (content_llm_no_dollar hd) (content_llm_no_brace hb)]
  rw [matchCallWrapper_append "LLM(".toList prompt hnl]
  rw [hlookup]
  simp only [Option.map_none]
  rw [if_neg (by simp)]
  rw [hmarked]
  simp

theorem pre_post_no_dollar {pre post : Str} (h1 : '$' ∉ pre) (h2 : '$' ∉ post) :
    '$' ∉ pre ++ post := by
  intro h
  rcases List.mem_append.mp h with h | h
  · exact h1 h
  · exact h2 h

theorem pre_post_no_brace {pre post : Str} (h1 : '\x7b' ∉ pre)
    (h2 : '\x7b' ∉ post) : '\x7b' ∉ pre ++ post := by
  intro h
  rcases List.mem_append.mp h with h | h
  · exact h1 h
  · exact h2 h

theorem processTemplatePlain_llm_error (client : Str → Except Str Str)
    (renderDS : Str → Str) (vars0 : VarMap) (name prompt pre post e : Str)
    (hname : name ≠ []) (hword : ∀ c ∈ name, isWordChar c = true)
    (hpre : '$' ∉ pre ∧ '\x7b' ∉ pre) (hpost : '$' ∉ post ∧ '\x7b' ∉ post)
    (hprompt : '\n' ∉ prompt ∧ '$' ∉ prompt ∧ '\x7b' ∉ prompt ∧ '\x7d' ∉ prompt)
    (hlookup : dictLookup vars0 name = none)
    (hplain : client (prompt ++ llmSuffix) = Except.error e) :
    processTemplatePlain client renderDS
        (pre ++ "\x7b\x7b".toList ++ name ++ ":=".toList
          ++ ("LLM(".toList ++ prompt ++ [')'])
          ++ "\x7d\x7d".toList ++ post) vars0
      = (pre ++ post, vars0, [prompt ++ llmSuffix]) := by
  simp only [processTemplatePlain, scanDirectives]
  rw [scanDirectivesGo_single _ pre hpre.2 name _ post hname hword
    (content_llm_no_rbrace hprompt.2.2.2) (content_llm_no_newline hprompt.1)
    hpost.2 (le_refl _)]
  rw [runSegs_map_lit_append]
  simp only [runSegs]
  rw [processDirectivePlain_llm_error client renderDS vars0 name prompt e
    hplain hlookup hprompt.1 hprompt.2.1 hprompt.2.2.1]
  rw [runSegs_map_lit]
  rw [substituteAllVariables_neutral vars0 renderDS [] (pre ++ post)
    (pre_post_no_dollar hpre.1 hpost.1) (pre_post_no_brace hpre.2 hpost.2)]

theorem processTemplateWithReferences_llm_error (client : Str → Except Str Str)
    (renderDS : Str → Str) (vars0 : VarMap) (name prompt pre post e : Str)
    (hname : name ≠ []) (hword : ∀ c ∈ name, isWordChar c = true)
    (hpre : '$' ∉ pre ∧ '\x7b' ∉ pre) (hpost : '$' ∉ post ∧ '\x7b' ∉ post)
    (hprompt : '\n' ∉ prompt ∧ '$' ∉ prompt ∧ '\x7b' ∉ prompt ∧ '\x7d' ∉ prompt)
    (hlookup : dictLookup vars0 name = none)
    (hmarked : client prompt = Except.error e) :
    processTemplateWithReferences client renderDS
        (pre ++ "\x7b\x7b".toList ++ name ++ ":=".toList
          ++ ("LLM(".toList ++ prompt ++ [')'])
          ++ "\x7d\x7d".toList ++ post) vars0
      = (pre ++ post,
         dictInsert vars0 name
           ⟨"Error processing template: ".toList ++ e, some prompt⟩,
         [prompt]) := by
  simp only [processTemplateWithReferences, scanDirectives]
  rw [scanDirectivesGo_single _ pre hpre.2 name _ post hname hword
    (content_llm_no_rbrace hprompt.2.2.2) (content_llm_no_newline hprompt.1)
    hpost.2 (le_refl _)]
  rw [runSegs_map_lit_append]
  simp only [runSegs]
  rw [processDirectiveMarked_llm_error client renderDS vars0 name prompt e
    hmarked hlookup hprompt.1 hprompt.2.1 hprompt.2.2.1]
  rw [runSegs_map_lit]
  rw [substituteWithReferences_neutral _ renderDS (pre ++ post)
    (pre_post_no_dollar hpre.1 hpost.1) (pre_post_no_brace hpre.2 hpost.2)]

/-! ## Views and the diff-view state machine
(`execution_result.py`, `simple_view.py`, `diff_view.py`).

Python dict objects are mutable and shared by reference between
`ExecutionResult`s, so the variable dictionaries live in an explicit store;
a reference is an index into it and `dict.copy()` allocates a fresh index. -/

abbrev VarStore := List VarMap

def storeGet (store : VarStore) (r : Nat) : VarMap := store.getD r []

def storeSet (store : VarStore) (r : Nat) (v : VarMap) : VarStore := store.set r v

/-- An `ExecutionResult` whose `variables` dict lives in the store. -/
structure ERRef where
  rendered_output : Str
  varsRef : Nat
  rendering_mode : Str
deriving DecidableEq, Repr

/-- `ExecutionResult.set_variable(name, value, prompt)`: assigns
`variables[name] = {"value": value, "prompt": prompt}` through the
reference. -/
def setVariable (store : VarStore) (er : ERRef) (name value : Str)
    (prompt : Option Str) : VarStore :=
  storeSet store er.varsRef
    (dictInsert (storeGet store er.varsRef) name ⟨value, prompt⟩)

/-- `Template(text).execute(client, ExecutionResult(variables=seed.copy()),
mode)` as one heap step: allocate a fresh dict initialised with a copy of
`seed`, run the evaluator on it (the rebuilt `Template` carries no
`document_id`, so its data-source table is empty and every lookup returns the
literal `$name`), and return the new result object, the updated store and the
completion-call log. -/
def executeIntoFresh (client : Str → Except Str Str) (store : VarStore)
    (templateText : Str) (seed : VarMap) (mode : Str) :
    ERRef × VarStore × List Str :=
  let p := templateExecute client (fun n => '$' :: n) templateText
    { «variables» := seed } mode
  (⟨p.1.rendered_output, store.length, p.1.rendering_mode⟩,
   store ++ [p.1.«variables»], p.2)

/-- `SimpleView`: one template text and one execution result. -/
structure SimpleViewS where
  template_text : Str
  execution_result : ERRef
deriving DecidableEq, Repr

/-- `DiffView`: the two sides, the display mode and the cached line diffs. -/
structure DiffViewS where
  current_template : Str
  current_result : ERRef
  suggested_template : Str
  suggested_result : ERRef
  display_mode : Str
  line_diffs : List LineDiff
deriving DecidableEq, Repr

/-- `DiffView.accept_suggestion`: take the suggested template text verbatim,
rebuild its `Template`, re-execute against a copy of the *suggested* side's
own variable mapping, and return the new `SimpleView`. -/
def acceptSuggestion (client : Str → Except Str Str) (d : DiffViewS)
    (store : VarStore) : SimpleViewS × VarStore × List Str :=
  let p := executeIntoFresh client store d.suggested_template
    (storeGet store d.suggested_result.varsRef) d.display_mode
  (⟨d.suggested_template, p.1⟩, p.2.1, p.2.2)

/-- `DiffView.reject_suggestion`: symmetric to `acceptSuggestion`, from a copy
of the *current* side's own mapping. -/
def rejectSuggestion (client : Str → Except Str Str) (d : DiffViewS)
    (store : VarStore) : SimpleViewS × VarStore × List Str :=
  let p := executeIntoFresh client store d.current_template
    (storeGet store d.current_result.varsRef) d.display_mode
  (⟨d.current_template, p.1⟩, p.2.1, p.2.2)

/-- The single-line-patch branch of `DiffView.update_from_editor`: splice one
line into the named side's text when the (possibly negative, hence `Int`)
index is in range, rebuild that side's `Template` and re-execute it seeded
with a copy of the *current* side's variable mapping; out-of-range indices and
unknown change types leave everything untouched. -/
def updateFromEditorPatch (client : Str → Except Str Str) (d : DiffViewS)
    (store : VarStore) (ct : Str) (li : Int) (lc : Str) :
    DiffViewS × VarStore × List Str :=
  if ct = "current".toList then
    let lines := splitNl d.current_template
    if 0 ≤ li ∧ li < (lines.length : Int) then
      let newText := joinNl (lines.set li.toNat lc)
      let p := executeIntoFresh client store newText
        (storeGet store d.current_result.varsRef) d.display_mode
      ({ d with current_template := newText, current_result := p.1 },
       p.2.1, p.2.2)
    else (d, store, [])
  else if ct = "suggested".toList then
    let lines := splitNl d.suggested_template
    if 0 ≤ li ∧ li < (lines.length : Int) then
      let newText := joinNl (lines.set li.toNat lc)
      let p := executeIntoFresh client store newText
        (storeGet store d.current_result.varsRef) d.display_mode
      ({ d with suggested_template := newText, suggested_result := p.1 },
       p.2.1, p.2.2)
    else (d, store, [])
  else (d, store, [])

/-- The full-content branch of `DiffView.update_from_editor`: decode the HTML
diff markup into the two texts, rebuild and re-execute the current side seeded
with a copy of the current mapping, then rebuild and re-execute the suggested
side seeded with a copy of the *just-updated* current result's mapping. -/
def updateFromEditorFull (client : Str → Except Str Str) (d : DiffViewS)
    (store : VarStore) (editorContent : Str) :
    DiffViewS × VarStore × List Str :=
  let pr := parseDiffContent editorContent
  let p1 := executeIntoFresh client store pr.1
    (storeGet store d.current_result.varsRef) d.display_mode
  let d1 := { d with current_template := pr.1, current_result := p1.1 }
  let p2 := executeIntoFresh client p1.2.1 pr.2
    (storeGet p1.2.1 d1.current_result.varsRef) d1.display_mode
  ({ d1 with suggested_template := pr.2, suggested_result := p2.1 },
   p2.2.1, p1.2.2 ++ p2.2.2)

/-- `DiffView.update_from_editor`: the patch branch runs when change type,
line index and line content are all supplied with a truthy (non-empty) change
type, else the full-content branch; the line diffs are recomputed from the
(possibly updated) template texts at the end of every call. -/
def updateFromEditor (client : Str → Except Str Str) (d : DiffViewS)
    (store : VarStore) (editorContent : Str) (changeType : Option Str)
    (lineIndex : Option Int) (lineContent : Option Str) :
    DiffViewS × VarStore × List Str :=
  let r :=
    match changeType, lineIndex, lineContent with
    | some ct, some li, some lc =>
      if ct ≠ [] then updateFromEditorPatch client d store ct li lc
      else updateFromEditorFull client d store editorContent
    | _, _, _ => updateFromEditorFull client d store editorContent
  ({ r.1 with line_diffs :=
      computeLineDiffs r.1.current_template r.1.suggested_template },
   r.2)

theorem storeGet_append_self (store : VarStore) (v : VarMap) :
    storeGet (store ++ [v]) store.length = v := by
  simp [storeGet, List.getD_eq_getElem?_getD]

theorem storeGet_append_lt (store : VarStore) (v : VarMap) {r : Nat}
    (h : r < store.length) : storeGet (store ++ [v]) r = storeGet store r := by
  simp only [storeGet, List.getD_eq_getElem?_getD]
  rw [List.getElem?_append, if_pos h]

theorem storeGet_set_ne (store : VarStore) {r r' : Nat} (v : VarMap)
    (h : r ≠ r') : storeGet (storeSet store r v) r' = storeGet store r' := by
  simp only [storeGet, storeSet, List.getD_eq_getElem?_getD]
  rw [List.getElem?_set_ne h]

end LivingReports

/-- C2, counterexample: on `current = ["a","b"]`, `suggested = ["a","x","b"]`
the record at line index 2 has `changeType = "added"` (its current-side line is
the padded empty string), not `"removed"` as the claim asserts; the full diff is
`[modified(b,x) at 1, added("","b") at 2]`. -/
theorem computeLineDiffs_insertion_tags_added_not_removed :
    ((LivingReports.computeLineDiffs "a\nb".toList "a\nx\nb".toList).map
        LivingReports.LineDiff.changeType
      = ["modified".toList, "added".toList]) ∧
    ¬ ∃ d ∈ LivingReports.computeLineDiffs "a\nb".toList "a\nx\nb".toList,
        d.lineIndex = 2 ∧ d.changeType = "removed".toList := by
  decide

/-- C2 (amended): for `current = ["a","b"]`, `suggested = ["a","x","b"]`,
`DiffView._compute_line_diffs` produces exactly two records — at index 1
`modified` (originalLine "b", suggestedLine "x") and at index 2 `added`
(originalLine "", suggestedLine "b"); the single-insertion case does not
collapse to one record.  In general the diff is positional: both sides are
padded with empty strings up to the max line count, and a record is emitted at
exactly the differing indices, carrying both padded lines and the tag
`modified` (both non-empty), `added` (current side empty) or `removed`
(suggested side empty). -/
theorem computeLineDiffs_positional_spec :
    (LivingReports.computeLineDiffs "a\nb".toList "a\nx\nb".toList
      = [⟨1, "b".toList, "x".toList, "modified".toList⟩,
         ⟨2, [], "b".toList, "added".toList⟩]) ∧
    ∀ currentText suggestedText (d : LivingReports.LineDiff),
      d ∈ LivingReports.computeLineDiffs currentText suggestedText ↔
        (d.lineIndex < max (LivingReports.splitNl currentText).length
            (LivingReports.splitNl suggestedText).length ∧
         (LivingReports.splitNl currentText).getD d.lineIndex []
            ≠ (LivingReports.splitNl suggestedText).getD d.lineIndex [] ∧
         d.originalLine = (LivingReports.splitNl currentText).getD d.lineIndex [] ∧
         d.suggestedLine = (LivingReports.splitNl suggestedText).getD d.lineIndex [] ∧
         d.changeType = LivingReports.diffChangeType d.originalLine d.suggestedLine) := by
  constructor
  · decide
  · intro currentText suggestedText d
    simp only [LivingReports.computeLineDiffs, List.mem_filterMap, List.mem_range]
    constructor
    · rintro ⟨i, hi, h⟩
      by_cases heq :
          (LivingReports.splitNl currentText).getD i []
            = (LivingReports.splitNl suggestedText).getD i []
      · rw [if_pos heq] at h
        exact absurd h (by simp)
      · rw [if_neg heq] at h
        have hd := Option.some_inj.mp h
        subst hd
        exact ⟨hi, heq, rfl, rfl, rfl⟩
    · rintro ⟨hi, hne, ho, hs, hc⟩
      refine ⟨d.lineIndex, hi, ?_⟩
      rw [if_neg hne]
      cases d
      simp_all

/-- C7: `DiffView.parse_diff_content(text)` on input containing no span markup
(no `"<span"` substring) takes the fast path and returns the pair
`(text, text)` unchanged, treating plain text as identical content for both
sides. -/
theorem parseDiffContent_no_markup_fast_path (editorContent : LivingReports.Str)
    (h : LivingReports.containsSub "<span".toList editorContent = false) :
    LivingReports.parseDiffContent editorContent = (editorContent, editorContent) := by
  unfold LivingReports.parseDiffContent
  rw [h]
  simp

/-- Witness for C7 at a concrete plain text. -/
theorem parseDiffContent_no_markup_fast_path_witness :
    LivingReports.containsSub "<span".toList "a $x\nb".toList = false ∧
    LivingReports.parseDiffContent "a $x\nb".toList
      = ("a $x\nb".toList, "a $x\nb".toList) :=
  ⟨by decide, parseDiffContent_no_markup_fast_path "a $x\nb".toList (by decide)⟩

/-- C8: on the markup path of `DiffView.parse_diff_content` (the function is
total, so malformed input never raises), any line index up to the maximum
addressed line index that is addressed by no container element is left `None`
in both assembled arrays and therefore defaults to the empty string on both
the current and the suggested side; the returned pair joins exactly these
assembled line lists. -/
theorem parseDiffContent_unaddressed_lines_default_empty
    (editorContent : LivingReports.Str) (i : Nat)
    (hmarkup : (LivingReports.containsSub "<span".toList editorContent
        && LivingReports.containsSub "class=".toList editorContent) = true)
    (hrange : i ≤ (((LivingReports.sortByIdx
        (LivingReports.extractDivs editorContent)).map Prod.fst).foldr max 0))
    (hunaddr : ∀ m ∈ LivingReports.extractDivs editorContent, m.1 ≠ i) :
    (LivingReports.assembleDiffLines editorContent).1.getD i [] = [] ∧
    (LivingReports.assembleDiffLines editorContent).2.getD i [] = [] ∧
    LivingReports.parseDiffContent editorContent =
      (LivingReports.joinNl (LivingReports.assembleDiffLines editorContent).1,
       LivingReports.joinNl (LivingReports.assembleDiffLines editorContent).2) := by
  have hsorted : ∀ m ∈ LivingReports.sortByIdx
      (LivingReports.extractDivs editorContent), m.1 ≠ i :=
    fun m hm => hunaddr m (LivingReports.mem_sortByIdx hm)
  obtain ⟨h1, h2⟩ := LivingReports.foldl_applyDivMatch_preserves
    (LivingReports.sortByIdx (LivingReports.extractDivs editorContent))
    (List.replicate ((((LivingReports.sortByIdx
        (LivingReports.extractDivs editorContent)).map Prod.fst).foldr max 0) + 1) none,
     List.replicate ((((LivingReports.sortByIdx
        (LivingReports.extractDivs editorContent)).map Prod.fst).foldr max 0) + 1) none)
    hsorted
  refine ⟨?_, ?_, ?_⟩
  · show (LivingReports.assembleDiffLines editorContent).1.getD i [] = []
    simp only [LivingReports.assembleDiffLines]
    apply LivingReports.map_optGetD_eq_nil
    rw [h1]
    rw [List.getElem?_replicate]
    split <;> simp
  · show (LivingReports.assembleDiffLines editorContent).2.getD i [] = []
    simp only [LivingReports.assembleDiffLines]
    apply LivingReports.map_optGetD_eq_nil
    rw [h2]
    rw [List.getElem?_replicate]
    split <;> simp
  · unfold LivingReports.parseDiffContent
    rw [hmarkup]
    simp

/-- Witness for C8: a container addresses line index 1 only, so index 0
defaults to the empty string on both sides. -/
theorem parseDiffContent_unaddressed_lines_default_empty_witness :
    (LivingReports.assembleDiffLines
        "<div class=\"suggestion-line\" data-line-index=\"1\"><span class=\"added-text\">hi</span></div>".toList).1.getD 0 [] = [] ∧
    (LivingReports.assembleDiffLines
        "<div class=\"suggestion-line\" data-line-index=\"1\"><span class=\"added-text\">hi</span></div>".toList).2.getD 0 [] = [] := by
  have h := parseDiffContent_unaddressed_lines_default_empty
    "<div class=\"suggestion-line\" data-line-index=\"1\"><span class=\"added-text\">hi</span></div>".toList
    0 (by decide) (by decide) (by decide)
  exact ⟨h.1, h.2.1⟩

/-- C5: aggregate directives tokenize their argument on commas, semicolons and
whitespace, parse each token as a float silently dropping non-numeric tokens,
and store `str(sum)` for SUM and `str(sum/len)` for AVG: `SUM(1,2,3)` yields
the string `"6.0"`, `AVG(1,2,3)` yields `"2.0"`, `SUM(a,b,c)` (no numeric
tokens) yields `"0"`, and the mixed `SUM(1; 2 x,3)` drops `x` and yields
`"6.0"`; the evaluated argument is stored as the variable's prompt. -/
theorem sum_avg_directive_results :
    ((LivingReports.templateExecute (fun _ => Except.ok []) (fun n => '$' :: n)
        "\x7b\x7bx:=SUM(1,2,3)\x7d\x7d".toList {} "output_only".toList).1.«variables»
      = [("x".toList, ⟨"6.0".toList, some "1,2,3".toList⟩)]) ∧
    ((LivingReports.templateExecute (fun _ => Except.ok []) (fun n => '$' :: n)
        "\x7b\x7bx:=AVG(1,2,3)\x7d\x7d".toList {} "output_only".toList).1.«variables»
      = [("x".toList, ⟨"2.0".toList, some "1,2,3".toList⟩)]) ∧
    ((LivingReports.templateExecute (fun _ => Except.ok []) (fun n => '$' :: n)
        "\x7b\x7bx:=SUM(a,b,c)\x7d\x7d".toList {} "output_only".toList).1.«variables»
      = [("x".toList, ⟨"0".toList, some "a,b,c".toList⟩)]) ∧
    ((LivingReports.templateExecute (fun _ => Except.ok []) (fun n => '$' :: n)
        "\x7b\x7bx:=SUM(1; 2 x,3)\x7d\x7d".toList {} "output_only".toList).1.«variables»
      = [("x".toList, ⟨"6.0".toList, some "1; 2 x,3".toList⟩)]) := by
  decide

/-- C1, failing input: with a client always answering `"v"`, executing the
unchanged template `{{x:=LLM(p)}}` in `output_only` mode twice — the second
time against the exact mapping produced by the first — performs a completion
call in *both* executions.  The second conjunct shows why: the stored prompt
is the evaluated prompt with `llmSuffix` (`"\n\n Directly return results."`)
appended, so it never equals the directive's evaluated prompt `"p"` on
re-execution and the cache check always misses.  The claim requires the
second execution to make no call. -/
theorem llm_reexecution_repeats_completion_call :
    ((LivingReports.templateExecute (fun _ => Except.ok "v".toList) (fun n => '$' :: n)
        "\x7b\x7bx:=LLM(p)\x7d\x7d".toList {} "output_only".toList).2
      = ["p".toList ++ LivingReports.llmSuffix]) ∧
    ((LivingReports.templateExecute (fun _ => Except.ok "v".toList) (fun n => '$' :: n)
        "\x7b\x7bx:=LLM(p)\x7d\x7d".toList {} "output_only".toList).1.«variables»
      = [("x".toList, ⟨"v".toList, some ("p".toList ++ LivingReports.llmSuffix)⟩)]) ∧
    ((LivingReports.templateExecute (fun _ => Except.ok "v".toList) (fun n => '$' :: n)
        "\x7b\x7bx:=LLM(p)\x7d\x7d".toList
        (LivingReports.templateExecute (fun _ => Except.ok "v".toList) (fun n => '$' :: n)
          "\x7b\x7bx:=LLM(p)\x7d\x7d".toList {} "output_only".toList).1
        "output_only".toList).2
      = ["p".toList ++ LivingReports.llmSuffix]) := by
  decide

/-- C3, counterexample: in `output_only` mode a completion exception is caught
but its error string is *not* stored in the variable mapping — executing
`{{x:=LLM(p)}}` with a client that raises `boom` attempts one call (second
conjunct) yet leaves `x` absent from the variables (first conjunct), while the
claim requires `x` to hold the error string in every rendering mode. -/
theorem llm_error_discarded_in_output_only :
    (LivingReports.dictLookup
        (LivingReports.templateExecute (fun _ => Except.error "boom".toList)
          (fun n => '$' :: n) "\x7b\x7bx:=LLM(p)\x7d\x7d".toList {}
          "output_only".toList).1.«variables» "x".toList
      = none) ∧
    ((LivingReports.templateExecute (fun _ => Except.error "boom".toList)
        (fun n => '$' :: n) "\x7b\x7bx:=LLM(p)\x7d\x7d".toList {}
        "output_only".toList).2
      = ["p".toList ++ LivingReports.llmSuffix]) := by
  decide

/-- C6: for a reference `$name` whose name resolves neither as a variable
(absent from the mapping) nor as a data source (the resolver returns the
literal `$name`, the source's not-found sentinel), `Template.execute` — in
every rendering mode — leaves the literal reference text unchanged in the
rendered output, makes no completion call, leaves the variables untouched and
never raises (the embedding of `execute` is total); in particular the
substring `$name` is preserved.  The surrounding text may be any
directive- and reference-free text (`pre`/`post` without `$` or braces, with
`post` not starting in a word character that would extend the name). -/
theorem unresolved_reference_left_verbatim
    (client : LivingReports.Str → Except LivingReports.Str LivingReports.Str)
    (renderDS : LivingReports.Str → LivingReports.Str)
    (existing : LivingReports.ExecutionResult)
    (mode name pre post : LivingReports.Str)
    (hname : name ≠ []) (hword : ∀ c ∈ name, LivingReports.isWordChar c = true)
    (hpre : '$' ∉ pre ∧ '\x7b' ∉ pre) (hpost : '$' ∉ post ∧ '\x7b' ∉ post)
    (hhead : ∀ c ∈ post.head?, LivingReports.isWordChar c = false)
    (hlookup : LivingReports.dictLookup existing.«variables» name = none)
    (hds : renderDS name = '$' :: name) :
    LivingReports.templateExecute client renderDS (pre ++ '$' :: name ++ post)
        existing mode
      = ({ rendered_output := pre ++ '$' :: name ++ post,
           «variables» := existing.«variables», rendering_mode := mode }, [])
    ∧ ('$' :: name) <:+:
        (LivingReports.templateExecute client renderDS
          (pre ++ '$' :: name ++ post) existing mode).1.rendered_output := by
  have hmain :
      LivingReports.templateExecute client renderDS (pre ++ '$' :: name ++ post)
          existing mode
        = ({ rendered_output := pre ++ '$' :: name ++ post,
             «variables» := existing.«variables», rendering_mode := mode }, []) := by
    unfold LivingReports.templateExecute
    split
    · rw [LivingReports.processTemplateWithReferences_unresolved_ref client
        renderDS existing.«variables» name pre post hname hword hpre hpost hhead
        hlookup hds]
    · rw [LivingReports.processTemplatePlain_unresolved_ref client
        renderDS existing.«variables» name pre post hname hword hpre hpost hhead
        hlookup hds]
  refine ⟨hmain, ?_⟩
  rw [hmain]
  exact ⟨pre, post, by rw [List.append_assoc]⟩

/-- Witness for C6 at `name = "foo"` inside `"see $foo here"` with an empty
variable mapping and a resolver with no data sources. -/
theorem unresolved_reference_left_verbatim_witness :
    LivingReports.templateExecute (fun _ => Except.ok []) (fun n => '$' :: n)
        "see $foo here".toList {} "output_only".toList
      = ({ rendered_output := "see $foo here".toList, «variables» := [],
           rendering_mode := "output_only".toList }, []) := by
  have h := unresolved_reference_left_verbatim (fun _ => Except.ok [])
    (fun n => '$' :: n) {} "output_only".toList "foo".toList
    "see ".toList " here".toList (by decide) (by decide) (by decide) (by decide)
    (by decide) (by decide) (by decide)
  exact h.1

/-- C3 (amended): a completion exception during an `LLM(...)` directive is
always caught — `Template.execute` is total and the rest of the template
evaluates normally (here: to the surrounding text, with one completion call
logged) — but the error string is stored as the variable's value only in
`output_and_variables` mode; in `output_only` mode the handler's error string
is returned to a caller that discards it and the variable mapping is left
unchanged for that name.  `pre`/`post` are arbitrary reference- and
directive-free surroundings; the prompt is any newline-, brace-, and
dollar-free string. -/
theorem llm_exception_caught_per_mode
    (client : LivingReports.Str → Except LivingReports.Str LivingReports.Str)
    (renderDS : LivingReports.Str → LivingReports.Str)
    (existing : LivingReports.ExecutionResult)
    (name prompt pre post e₁ e₂ : LivingReports.Str)
    (hname : name ≠ [])
    (hword : ∀ c ∈ name, LivingReports.isWordChar c = true)
    (hpre : '$' ∉ pre ∧ '\x7b' ∉ pre) (hpost : '$' ∉ post ∧ '\x7b' ∉ post)
    (hprompt : '\n' ∉ prompt ∧ '$' ∉ prompt ∧ '\x7b' ∉ prompt ∧ '\x7d' ∉ prompt)
    (hlookup : LivingReports.dictLookup existing.«variables» name = none)
    (hplain : client (prompt ++ LivingReports.llmSuffix) = Except.error e₁)
    (hmarked : client prompt = Except.error e₂) :
    (LivingReports.templateExecute client renderDS
        (pre ++ "\x7b\x7b".toList ++ name ++ ":=".toList
          ++ ("LLM(".toList ++ prompt ++ [')'])
          ++ "\x7d\x7d".toList ++ post) existing "output_only".toList
      = ({ rendered_output := pre ++ post,
           «variables» := existing.«variables»,
           rendering_mode := "output_only".toList },
         [prompt ++ LivingReports.llmSuffix])) ∧
    (LivingReports.templateExecute client renderDS
        (pre ++ "\x7b\x7b".toList ++ name ++ ":=".toList
          ++ ("LLM(".toList ++ prompt ++ [')'])
          ++ "\x7d\x7d".toList ++ post) existing "output_and_variables".toList
      = ({ rendered_output := pre ++ post,
           «variables» := LivingReports.dictInsert existing.«variables» name
             ⟨"Error processing template: ".toList ++ e₂, some prompt⟩,
           rendering_mode := "output_and_variables".toList },
         [prompt])) := by
  constructor
  · unfold LivingReports.templateExecute
    rw [if_neg (by decide)]
    rw [LivingReports.processTemplatePlain_llm_error client renderDS
      existing.«variables» name prompt pre post e₁ hname hword hpre hpost
      hprompt hlookup hplain]
  · unfold LivingReports.templateExecute
    rw [if_pos (by decide)]
    rw [LivingReports.processTemplateWithReferences_llm_error client renderDS
      existing.«variables» name prompt pre post e₂ hname hword hpre hpost
      hprompt hlookup hmarked]

/-- Witness for C3 at `{{x:=LLM(p)}}` inside `"a <dir> b"` with a client that
always raises `boom`. -/
theorem llm_exception_caught_per_mode_witness :
    (LivingReports.templateExecute (fun _ => Except.error "boom".toList)
        (fun n => '$' :: n) "a \x7b\x7bx:=LLM(p)\x7d\x7d b".toList {}
        "output_only".toList
      = ({ rendered_output := "a  b".toList, «variables» := [],
           rendering_mode := "output_only".toList },
         ["p".toList ++ LivingReports.llmSuffix])) ∧
    (LivingReports.templateExecute (fun _ => Except.error "boom".toList)
        (fun n => '$' :: n) "a \x7b\x7bx:=LLM(p)\x7d\x7d b".toList {}
        "output_and_variables".toList
      = ({ rendered_output := "a  b".toList,
           «variables» := [("x".toList,
             ⟨"Error processing template: boom".toList, some "p".toList⟩)],
           rendering_mode := "output_and_variables".toList },
         ["p".toList])) := by
  have h := llm_exception_caught_per_mode (fun _ => Except.error "boom".toList)
    (fun n => '$' :: n) {} "x".toList "p".toList "a ".toList " b".toList
    "boom".toList "boom".toList (by decide) (by decide) (by decide) (by decide)
    (by decide) (by decide) rfl rfl
  exact h

/-- C4: `accept_suggestion` rebuilds the suggested template text verbatim and
re-executes it against a *copy* of the suggested side's own variable mapping:
the returned SimpleView's result holds a freshly allocated dict (distinct
reference), initialised by executing against the suggested mapping — never
the current side's — so `set_variable` on the new view leaves the original
DiffView's `suggested_result.variables` untouched; symmetrically
`reject_suggestion` copies the current side's own mapping. -/
theorem accept_reject_copy_own_side
    (client : LivingReports.Str → Except LivingReports.Str LivingReports.Str)
    (d : LivingReports.DiffViewS) (store : LivingReports.VarStore)
    (hsug : d.suggested_result.varsRef < store.length) :
    ((LivingReports.acceptSuggestion client d store).1.execution_result.varsRef
        ≠ d.suggested_result.varsRef) ∧
    ((LivingReports.acceptSuggestion client d store).1.template_text
        = d.suggested_template) ∧
    (LivingReports.storeGet (LivingReports.acceptSuggestion client d store).2.1
        (LivingReports.acceptSuggestion client d store).1.execution_result.varsRef
      = (LivingReports.templateExecute client (fun n => '$' :: n)
          d.suggested_template
          { «variables» := LivingReports.storeGet store d.suggested_result.varsRef }
          d.display_mode).1.«variables») ∧
    (∀ (name value : LivingReports.Str) (prompt : Option LivingReports.Str),
      LivingReports.storeGet
        (LivingReports.setVariable (LivingReports.acceptSuggestion client d store).2.1
          (LivingReports.acceptSuggestion client d store).1.execution_result
          name value prompt)
        d.suggested_result.varsRef
      = LivingReports.storeGet store d.suggested_result.varsRef) ∧
    ((LivingReports.rejectSuggestion client d store).1.template_text
        = d.current_template) ∧
    (LivingReports.storeGet (LivingReports.rejectSuggestion client d store).2.1
        (LivingReports.rejectSuggestion client d store).1.execution_result.varsRef
      = (LivingReports.templateExecute client (fun n => '$' :: n)
          d.current_template
          { «variables» := LivingReports.storeGet store d.current_result.varsRef }
          d.display_mode).1.«variables») := by
  refine ⟨?_, rfl, ?_, ?_, rfl, ?_⟩
  · show store.length ≠ d.suggested_result.varsRef
    omega
  · exact LivingReports.storeGet_append_self store _
  · intro name value prompt
    show LivingReports.storeGet
        (LivingReports.storeSet (store ++ [_]) store.length _)
        d.suggested_result.varsRef = _
    rw [LivingReports.storeGet_set_ne _ _ (by omega)]
    exact LivingReports.storeGet_append_lt store _ hsug
  · exact LivingReports.storeGet_append_self store _

/-- Witness for C4 on a two-entry store with distinct sides. -/
theorem accept_reject_copy_own_side_witness :
    ((LivingReports.acceptSuggestion (fun _ => Except.ok [])
        ⟨"a".toList, ⟨[], 0, "output_only".toList⟩,
         "b".toList, ⟨[], 1, "output_only".toList⟩,
         "output_only".toList, []⟩
        [[], []]).1.execution_result.varsRef ≠ 1) ∧
    (LivingReports.storeGet
        (LivingReports.setVariable
          (LivingReports.acceptSuggestion (fun _ => Except.ok [])
            ⟨"a".toList, ⟨[], 0, "output_only".toList⟩,
             "b".toList, ⟨[], 1, "output_only".toList⟩,
             "output_only".toList, []⟩
            [[], []]).2.1
          (LivingReports.acceptSuggestion (fun _ => Except.ok [])
            ⟨"a".toList, ⟨[], 0, "output_only".toList⟩,
             "b".toList, ⟨[], 1, "output_only".toList⟩,
             "output_only".toList, []⟩
            [[], []]).1.execution_result
          "y".toList "v".toList none)
        1
      = LivingReports.storeGet [[], []] 1) := by
  have h := accept_reject_copy_own_side (fun _ => Except.ok [])
    ⟨"a".toList, ⟨[], 0, "output_only".toList⟩,
     "b".toList, ⟨[], 1, "output_only".toList⟩,
     "output_only".toList, []⟩
    [[], []] (by decide)
  exact ⟨h.1, h.2.2.2.1 "y".toList "v".toList none⟩

/-- C9: in the full-content path of `update_from_editor` (no single-line
patch supplied) both sides are re-executed seeded with a copy of the current
side's variable mapping: the current side is rebuilt first from the decoded
current text, and the suggested side's new mapping is the result of executing
the decoded suggested text seeded with the just-updated current variables —
an expression in which the previous suggested mapping does not occur, and the
new suggested result holds a fresh reference distinct from the old one: the
previous suggested mapping is discarded entirely. -/
theorem update_from_editor_full_reseeds_both_from_current
    (client : LivingReports.Str → Except LivingReports.Str LivingReports.Str)
    (d : LivingReports.DiffViewS) (store : LivingReports.VarStore)
    (ec : LivingReports.Str)
    (hsug : d.suggested_result.varsRef < store.length) :
    ((LivingReports.updateFromEditor client d store ec none none
        none).1.current_template = (LivingReports.parseDiffContent ec).1) ∧
    ((LivingReports.updateFromEditor client d store ec none none
        none).1.suggested_template = (LivingReports.parseDiffContent ec).2) ∧
    (LivingReports.storeGet
        (LivingReports.updateFromEditor client d store ec none none none).2.1
        (LivingReports.updateFromEditor client d store ec none none
          none).1.current_result.varsRef
      = (LivingReports.templateExecute client (fun n => '$' :: n)
          (LivingReports.parseDiffContent ec).1
          { «variables» := LivingReports.storeGet store d.current_result.varsRef }
          d.display_mode).1.«variables») ∧
    (LivingReports.storeGet
        (LivingReports.updateFromEditor client d store ec none none none).2.1
        (LivingReports.updateFromEditor client d store ec none none
          none).1.suggested_result.varsRef
      = (LivingReports.templateExecute client (fun n => '$' :: n)
          (LivingReports.parseDiffContent ec).2
          { «variables» :=
              (LivingReports.templateExecute client (fun n => '$' :: n)
                (LivingReports.parseDiffContent ec).1
                { «variables» :=
                    LivingReports.storeGet store d.current_result.varsRef }
                d.display_mode).1.«variables» }
          d.display_mode).1.«variables») ∧
    ((LivingReports.updateFromEditor client d store ec none none
        none).1.suggested_result.varsRef ≠ d.suggested_result.varsRef) := by
  refine ⟨rfl, rfl, ?_, ?_, ?_⟩
  · show LivingReports.storeGet ((store ++ [_]) ++ [_]) store.length = _
    rw [LivingReports.storeGet_append_lt _ _ (by simp)]
    rw [LivingReports.storeGet_append_self]
  · simp only [LivingReports.updateFromEditor, LivingReports.updateFromEditorFull,
      LivingReports.executeIntoFresh]
    rw [LivingReports.storeGet_append_self]
    rw [LivingReports.storeGet_append_self]
  · show (store ++ [_]).length ≠ d.suggested_result.varsRef
    simp only [List.length_append, List.length_cons, List.length_nil]
    omega

/-- Witness for C9 on a one-entry store and plain-text editor content. -/
theorem update_from_editor_full_reseeds_both_from_current_witness :
    ((LivingReports.updateFromEditor (fun _ => Except.ok [])
        ⟨"a".toList, ⟨[], 0, "output_only".toList⟩,
         "b".toList, ⟨[], 0, "output_only".toList⟩,
         "output_only".toList, []⟩
        [[]] "x".toList none none none).1.current_template = "x".toList) ∧
    ((LivingReports.updateFromEditor (fun _ => Except.ok [])
        ⟨"a".toList, ⟨[], 0, "output_only".toList⟩,
         "b".toList, ⟨[], 0, "output_only".toList⟩,
         "output_only".toList, []⟩
        [[]] "x".toList none none none).1.suggested_result.varsRef ≠ 0) := by
  have h := update_from_editor_full_reseeds_both_from_current
    (fun _ => Except.ok [])
    ⟨"a".toList, ⟨[], 0, "output_only".toList⟩,
     "b".toList, ⟨[], 0, "output_only".toList⟩,
     "output_only".toList, []⟩
    [[]] "x".toList (by decide)
  exact ⟨h.1, h.2.2.2.2⟩

/-- C10: a single-line patch whose line index lies outside
`[0, number of lines of that side's template text)` (including negative
indices) changes nothing: no template is rebuilt, no re-execution happens (the
store is untouched and the completion-call log is empty) and both results are
unchanged; the line diffs are recomputed but — the templates being unchanged —
equal their previous value whenever the view was consistent. -/
theorem update_from_editor_out_of_range_patch_noop
    (client : LivingReports.Str → Except LivingReports.Str LivingReports.Str)
    (d : LivingReports.DiffViewS) (store : LivingReports.VarStore)
    (ec lc ct : LivingReports.Str) (li : Int)
    (hct : ct = "current".toList ∨ ct = "suggested".toList)
    (hrange : ¬ (0 ≤ li ∧ li < ((LivingReports.splitNl
        (if ct = "current".toList then d.current_template
         else d.suggested_template)).length : Int))) :
    (LivingReports.updateFromEditor client d store ec (some ct) (some li)
        (some lc)
      = ({ d with line_diffs := LivingReports.computeLineDiffs d.current_template d.suggested_template }, store, [])) ∧
    (d.line_diffs = LivingReports.computeLineDiffs d.current_template
        d.suggested_template →
      LivingReports.updateFromEditor client d store ec (some ct) (some li)
          (some lc)
        = (d, store, [])) := by
  have hmain : LivingReports.updateFromEditor client d store ec (some ct)
      (some li) (some lc)
      = ({ d with line_diffs := LivingReports.computeLineDiffs d.current_template d.suggested_template }, store, []) := by
    rcases hct with rfl | rfl
    · rw [if_pos rfl] at hrange
      simp only [LivingReports.updateFromEditor, LivingReports.updateFromEditorPatch]
      simp [hrange]
    · rw [if_neg (by decide)] at hrange
      simp only [LivingReports.updateFromEditor, LivingReports.updateFromEditorPatch]
      simp [hrange]
  refine ⟨hmain, fun hld => ?_⟩
  rw [hmain, ← hld]

/-- Witness for C10 at a negative line index on the current side. -/
theorem update_from_editor_out_of_range_patch_noop_witness :
    LivingReports.updateFromEditor (fun _ => Except.ok [])
        ⟨"a".toList, ⟨[], 0, "output_only".toList⟩,
         "b".toList, ⟨[], 0, "output_only".toList⟩,
         "output_only".toList,
         LivingReports.computeLineDiffs "a".toList "b".toList⟩
        [[]] "e".toList (some "current".toList) (some (-1)) (some "z".toList)
      = (⟨"a".toList, ⟨[], 0, "output_only".toList⟩,
          "b".toList, ⟨[], 0, "output_only".toList⟩,
          "output_only".toList,
          LivingReports.computeLineDiffs "a".toList "b".toList⟩,
         [[]], []) := by
  have h := update_from_editor_out_of_range_patch_noop (fun _ => Except.ok [])
    ⟨"a".toList, ⟨[], 0, "output_only".toList⟩,
     "b".toList, ⟨[], 0, "output_only".toList⟩,
     "output_only".toList,
     LivingReports.computeLineDiffs "a".toList "b".toList⟩
    [[]] "e".toList "z".toList "current".toList (-1)
    (Or.inl rfl) (by decide)
  exact h.2 rfl
